import Mathlib

/-!
Verification of the NetworkPolicy reconciliation engine
(`pkg/resourcemanager/controller/networkpolicy/reconciler.go`) and of the
ManagedResource progressing reconciler, as a shallow embedding in Lean 4.

Conventions of the embedding:
* Go strings are Lean `String`s; Go `map[string]string` label/selector maps are
  association lists `List (String × String)` looked up by first match.
* The Kubernetes object store is a pure snapshot (`Store`): `Get`/`List` read
  it, `Create`/`Patch`/`Delete` produce an updated snapshot.  Transport errors
  are not modelled; `Get` of an absent object is the not-found error.
* `json.Unmarshal` of an annotation value is abstracted by the type `AnnValue`:
  an annotation value is carried already classified as `malformed` (unmarshal
  fails) or `parsed v` (unmarshal succeeds with payload `v`).  The map-presence
  check `v, ok := annotations[k]` is the `Option` layer around it.
* `flow.Parallel(fns...)` (repository code not under src/) is modelled from the
  spec: a single batch of tasks that all run to completion with the first
  error reported; tasks within one batch are mutually unordered.  The final
  store of a batch is well defined because the scheduled tasks address
  pairwise distinct object keys; we realise it as a fold.
-/

namespace NPol

/-- Looks up a key in an association-list label map (Go map indexing). -/
def getLabel (ls : List (String × String)) (k : String) : Option String :=
  (ls.find? (fun p => p.1 == k)).map (fun p => p.2)

/-- Sets a key in an association-list label map, overwriting an existing entry
(Go `metav1.SetMetaDataLabel` / map assignment). -/
def setLabel (ls : List (String × String)) (k v : String) : List (String × String) :=
  if (ls.find? (fun p => p.1 == k)).isSome then
    ls.map (fun p => if p.1 == k then (k, v) else p)
  else
    ls ++ [(k, v)]

/-- Whether a label map contains all the pairs of `req` (Go
`client.MatchingLabels` filtering and `labels.Set`-based matching of a
match-labels selector). -/
def labelsInclude (ls : List (String × String)) (req : List (String × String)) : Bool :=
  req.all (fun p => getLabel ls p.1 == some p.2)

/-- Embeds `intstr.IntOrString`: a numeric (int32) or named (string) port. -/
inductive IntOrString where
  | int (n : Int)
  | str (s : String)
deriving DecidableEq, Repr

/-- Embeds the Go `IntOrString.String()` method: `strconv.Itoa` for the int
case, the literal string for the string case. -/
def IntOrString.render : IntOrString → String
  | .int n => toString n
  | .str s => s

/-- Result of `json.Unmarshal` on an annotation value: the value either fails
to unmarshal (`malformed`) or yields a payload (`parsed`). -/
inductive AnnValue (α : Type) where
  | malformed
  | parsed (v : α)
deriving DecidableEq, Repr

/-- Embeds `networkingv1.NetworkPolicyPort`.  The Go struct holds pointers
`*Protocol` and `*IntOrString`; the code paths modelled here always construct
both fields (for service ports via `{Protocol: &port.Protocol, Port:
&port.TargetPort}`), so they are carried directly. -/
structure NetworkPolicyPort where
  protocol : String
  port : IntOrString
deriving DecidableEq, Repr

/-- Embeds `corev1.ServicePort` (the fields read by the reconciler). -/
structure ServicePort where
  protocol : String
  targetPort : IntOrString
deriving DecidableEq, Repr

/-- Embeds `metav1.LabelSelector` as it is used by
`fetchRelevantNamespaceNames`: its match-labels map, plus a flag abstracting
whether `metav1.LabelSelectorAsSelector` succeeds on it (the apimachinery
validation of match expressions is external library code). -/
structure MetaLabelSelector where
  matchLabels : List (String × String)
  valid : Bool
deriving DecidableEq, Repr

/-- The five well-known annotations read from a Service, carried in parsed
form (see `AnnValue`).  `fromPolicyPodLabelSelector` is compared against the
empty string in the source (`!= ""`), so absence and the empty value coincide
and it is a plain `String`; likewise `none` for `fromPolicyAllowedPorts`
covers both an absent key and the empty value. -/
structure ServiceAnns where
  namespaceSelectors : Option (AnnValue (List MetaLabelSelector)) := none
  podLabelSelectorNamespaceAlias : Option String := none
  fromWorldToPorts : Option (AnnValue (List NetworkPolicyPort)) := none
  fromPolicyPodLabelSelector : String := ""
  fromPolicyAllowedPorts : Option (AnnValue (List NetworkPolicyPort)) := none
deriving DecidableEq, Repr

/-- Embeds the fields of `corev1.Service` read by the reconciler.
`selector` is `Spec.Selector` (`nil` map vs. present map). -/
structure Service where
  name : String
  /-- The `Namespace` metadata field (`namespace` is a Lean keyword). -/
  nspace : String
  selector : Option (List (String × String))
  ports : List ServicePort
  deletionTimestamp : Option Nat
  finalizers : List String
  anns : ServiceAnns
deriving DecidableEq, Repr

/-- Embeds the namespace metadata read by the reconciler
(`metav1.PartialObjectMetadata` for a Namespace). -/
structure NamespaceMeta where
  name : String
  labels : List (String × String)
  deletionTimestamp : Option Nat
deriving DecidableEq, Repr

/-- Embeds `metav1.ObjectMeta` (name, namespace, labels). -/
structure ObjectMeta where
  name : String
  /-- The `Namespace` metadata field (`namespace` is a Lean keyword). -/
  nspace : String
  labels : List (String × String) := []
deriving DecidableEq, Repr

/-- ASCII lower-casing of one character, as `strings.ToLower` performs it on
ASCII input (protocol names are ASCII). -/
def lowerChar (c : Char) : Char :=
  if 'A' ≤ c ∧ c ≤ 'Z' then Char.ofNat (c.toNat + 32) else c

/-- Embeds `strings.ToLower` (ASCII range; the inputs in this controller are
protocol names `TCP`/`UDP`/`SCTP`). -/
def strToLower (s : String) : String :=
  ⟨s.data.map lowerChar⟩

/-- Source constant `finalizerName`. -/
def finalizerName : String := "resources.gardener.cloud/networkpolicy-controller"

/-- Constant `resourcesv1alpha1.NetworkingServiceName` (declared outside src/;
value fixed by the wire contract in the spec). -/
def networkingServiceName : String := "networking.resources.gardener.cloud/service-name"

/-- Constant `resourcesv1alpha1.NetworkingServiceNamespace` (declared outside
src/; value fixed by the wire contract in the spec). -/
def networkingServiceNamespace : String := "networking.resources.gardener.cloud/service-namespace"

/-- Constant `v1beta1constants.LabelNetworkPolicyAllowed` (declared outside
src/; the spec's scenario fixes the value `allowed`). -/
def labelNetworkPolicyAllowed : String := "allowed"

/-- Constant `corev1.LabelMetadataName` (Kubernetes well-known label). -/
def labelMetadataName : String := "kubernetes.io/metadata.name"

/-- Embeds `policyIDFor`: `serviceName-protocolLowercased-portString`. -/
def policyIDFor (serviceName : String) (port : NetworkPolicyPort) : String :=
  serviceName ++ "-" ++ strToLower port.protocol ++ "-" ++ port.port.render

/-- Embeds `matchLabelsForServiceAndNamespace`. -/
def matchLabelsForServiceAndNamespace (podLabelSelector : String) (service : Service)
    (namespaceName : String) : List (String × String) :=
  let infixStr : String :=
    if service.nspace != namespaceName then
      (match service.anns.podLabelSelectorNamespaceAlias with
        | some namespaceAlias => namespaceAlias
        | none => service.nspace) ++ "-"
    else ""
  [("networking.resources.gardener.cloud/to-" ++ infixStr ++ podLabelSelector,
    labelNetworkPolicyAllowed)]

/-- Embeds `ingressPolicyObjectMetaFor`. -/
def ingressPolicyObjectMetaFor (policyID serviceNamespace namespaceName : String) : ObjectMeta :=
  let name := "ingress-to-" ++ policyID ++
    (if serviceNamespace != namespaceName then "-from-" ++ namespaceName else "")
  { name := name, nspace := serviceNamespace }

/-- Embeds `egressPolicyObjectMetaFor`. -/
def egressPolicyObjectMetaFor (policyID serviceNamespace namespaceName : String) : ObjectMeta :=
  let name :=
    if serviceNamespace != namespaceName then
      "egress-to-" ++ serviceNamespace ++ "-" ++ policyID
    else
      "egress-to-" ++ policyID
  { name := name, nspace := namespaceName }

/-- Embeds `ingressNamespaceSelectorFor`. -/
def ingressNamespaceSelectorFor (serviceNamespace namespaceName : String) :
    Option (List (String × String)) :=
  if serviceNamespace == namespaceName then none
  else some [(labelMetadataName, namespaceName)]

/-- Embeds `egressNamespaceSelectorFor`. -/
def egressNamespaceSelectorFor (serviceNamespace namespaceName : String) :
    Option (List (String × String)) :=
  if serviceNamespace == namespaceName then none
  else some [(labelMetadataName, serviceNamespace)]

/-- Embeds `key`: the `namespace/name` identity key of an object. -/
def key (meta : ObjectMeta) : String :=
  meta.nspace ++ "/" ++ meta.name

/-- Embeds `networkingv1.NetworkPolicyPeer` (the fields this controller sets).
Selectors appear only in match-labels form here, so a selector is its
match-labels map; `none` is a nil pointer. -/
structure NetworkPolicyPeer where
  podSelector : Option (List (String × String)) := none
  namespaceSelector : Option (List (String × String)) := none
  ipBlockCIDR : Option String := none
deriving DecidableEq, Repr

/-- Embeds `networkingv1.NetworkPolicyIngressRule`. -/
structure NetworkPolicyIngressRule where
  frm : List NetworkPolicyPeer
  ports : List NetworkPolicyPort
deriving DecidableEq, Repr

/-- Embeds `networkingv1.NetworkPolicyEgressRule`. -/
structure NetworkPolicyEgressRule where
  toPeers : List NetworkPolicyPeer
  ports : List NetworkPolicyPort
deriving DecidableEq, Repr

/-- Embeds `networkingv1.PolicyType`. -/
inductive PolicyType where
  | ingress
  | egress
deriving DecidableEq, Repr

/-- Embeds `networkingv1.NetworkPolicy`.  The human-readable description
annotation set by the reconcile functions (`v1beta1constants.GardenerDescription`,
an `fmt.Sprintf` text) is not modelled; no claim refers to it. -/
structure NetworkPolicy where
  meta : ObjectMeta
  podSelector : List (String × String) := []
  policyTypes : List PolicyType := []
  ingress : List NetworkPolicyIngressRule := []
  egress : List NetworkPolicyEgressRule := []
deriving DecidableEq, Repr

/-- The object-store snapshot visible to the reconciler: the Services and
Namespaces it reads and the NetworkPolicies it owns. -/
structure Store where
  services : List Service
  namespaces : List NamespaceMeta
  networkPolicies : List NetworkPolicy
deriving DecidableEq, Repr

/-- Error taxonomy of one reconciliation, mirroring the `fmt.Errorf` sites of
the source. -/
inductive Err where
  | namespaceGet (name : String)
  | malformedNamespaceSelectors
  | selectorParse
  | malformedAllowedPorts
  | malformedFromWorldPorts
deriving DecidableEq, Repr

/-- One unit of work handed to `flow.Parallel`: the closures built by
`reconcileDesiredPolicies` (upserts, carrying exactly the arguments of the
corresponding Go closures) and by `deleteStalePolicies` (deletes). -/
inductive Task where
  | upsertIngress (service : Service) (port : NetworkPolicyPort) (meta : ObjectMeta)
      (namespaceName : String) (matchLabels : List (String × String))
  | upsertEgress (service : Service) (port : NetworkPolicyPort) (meta : ObjectMeta)
      (namespaceName : String) (matchLabels : List (String × String))
  | upsertFromWorld (service : Service) (meta : ObjectMeta)
  | deletePolicy (meta : ObjectMeta)
deriving DecidableEq, Repr

/-- The object meta a task addresses. -/
def Task.meta : Task → ObjectMeta
  | .upsertIngress _ _ m _ _ => m
  | .upsertEgress _ _ m _ _ => m
  | .upsertFromWorld _ m => m
  | .deletePolicy m => m

/-- Whether a task is a delete of a stale policy. -/
def Task.isDelete : Task → Bool
  | .deletePolicy _ => true
  | _ => false

/-- Whether a task is an upsert of a desired policy. -/
def Task.isUpsert (t : Task) : Bool := !t.isDelete

/-- Embeds `Reconciler.namespaceIsHandled`.  A configured selector is the
compiled `labels.Selector` built at startup, abstracted as its `Matches`
predicate on a label map. -/
def namespaceIsHandled (selectors : List (List (String × String) → Bool)) (store : Store)
    (namespaceName : String) : Except Err Bool :=
  match store.namespaces.find? (fun ns => ns.name == namespaceName) with
  | none => .error (.namespaceGet namespaceName)
  | some ns =>
    if selectors.isEmpty then .ok true
    else .ok (selectors.any (fun sel => sel ns.labels))

/-- Modelled from the spec: `metav1.LabelSelectorAsSelector` (apimachinery,
outside this repository) compiles a `metav1.LabelSelector` into a matcher or
fails; the `valid` flag of `MetaLabelSelector` carries the failure case and
the compiled matcher requires every match-labels pair. -/
def labelSelectorAsSelector (sel : MetaLabelSelector) :
    Except Err (List (String × String) → Bool) :=
  if sel.valid then .ok (fun ls => labelsInclude ls sel.matchLabels)
  else .error .selectorParse

/-- Inserts a string into a string set if absent (Go `sets.Set[string]`,
realised as a duplicate-free list whose order follows insertion; only the
membership of the result is relied upon, matching `UnsortedList`). -/
def insertName (names : List String) (n : String) : List String :=
  if n ∈ names then names else names ++ [n]

/-- The inner loop of `fetchRelevantNamespaceNames` over one listed namespace
batch: insert the names of the namespaces that carry no deletion timestamp. -/
def insertLiveNamespaceNames (namespaceNames : List String)
    (namespaceList : List NamespaceMeta) : List String :=
  namespaceList.foldl
    (fun acc ns => if ns.deletionTimestamp = none then insertName acc ns.name else acc)
    namespaceNames

/-- The selector loop of `fetchRelevantNamespaceNames`: for each annotation
selector, compile it (failing on an unparsable one), list the matching
namespaces, and add the live ones. -/
def collectSelectorNamespaces (store : Store) (namespaceNames : List String) :
    List MetaLabelSelector → Except Err (List String)
  | [] => .ok namespaceNames
  | n :: rest =>
    match labelSelectorAsSelector n with
    | .error e => .error e
    | .ok sel =>
      collectSelectorNamespaces store
        (insertLiveNamespaceNames namespaceNames (store.namespaces.filter (fun ns => sel ns.labels)))
        rest

/-- Embeds `Reconciler.fetchRelevantNamespaceNames`: the service's own
namespace plus, for every selector of the namespace-selectors annotation, the
names of matching namespaces that carry no deletion timestamp. -/
def fetchRelevantNamespaceNames (store : Store) (service : Service) :
    Except Err (List String) :=
  match service.anns.namespaceSelectors with
  | some .malformed => .error .malformedNamespaceSelectors
  | none => collectSelectorNamespaces store (insertName [] service.nspace) []
  | some (.parsed namespaceSelectors) =>
    collectSelectorNamespaces store (insertName [] service.nspace) namespaceSelectors

/-- One (task, desired-key) pair appended by `reconcileDesiredPolicies`; the
two Go slices `taskFns` and `desiredObjectMetaKeys` grow in lock step, so they
are built here as a single list of pairs and projected at the end. -/
abbrev Entry := Task × String

/-- Embeds the inner closure `addTasksForRelevantNamespacesAndPort` of
`reconcileDesiredPolicies`: for every relevant namespace, one ingress and one
egress entry for the given port (`customPodLabelSelector` empty for the
per-service-port convention). -/
def addTasksForRelevantNamespacesAndPort (service : Service) (namespaceNames : List String)
    (port : NetworkPolicyPort) (customPodLabelSelector : String) : List Entry :=
  let policyID0 := policyIDFor service.name port
  let policyID :=
    if customPodLabelSelector != "" then policyID0 ++ "-via-" ++ customPodLabelSelector
    else policyID0
  let podLabelSelector :=
    if customPodLabelSelector != "" then customPodLabelSelector else policyID0
  namespaceNames.flatMap (fun namespaceName =>
    let matchLabels := matchLabelsForServiceAndNamespace podLabelSelector service namespaceName
    let ingressMeta := ingressPolicyObjectMetaFor policyID service.nspace namespaceName
    let egressMeta := egressPolicyObjectMetaFor policyID service.nspace namespaceName
    [(.upsertIngress service port ingressMeta namespaceName matchLabels, key ingressMeta),
     (.upsertEgress service port egressMeta namespaceName matchLabels, key egressMeta)])

/-- The entries of the first loop of `reconcileDesiredPolicies`: one
ingress/egress pair per service port per relevant namespace. -/
def standardEntriesFor (service : Service) (namespaceNames : List String) : List Entry :=
  service.ports.flatMap (fun p =>
    addTasksForRelevantNamespacesAndPort service namespaceNames
      { protocol := p.protocol, port := p.targetPort } "")

/-- The entries of the custom-selector block of `reconcileDesiredPolicies`
(both from-policy annotations present and non-empty): parse the allowed-ports
value, failing on malformed JSON, and emit one pair per parsed port per
relevant namespace keyed by the custom pod label selector. -/
def customEntriesFor (service : Service) (namespaceNames : List String) :
    Except Err (List Entry) :=
  if service.anns.fromPolicyPodLabelSelector != "" then
    match service.anns.fromPolicyAllowedPorts with
    | none => .ok []
    | some .malformed => .error .malformedAllowedPorts
    | some (.parsed ports) =>
      .ok (ports.flatMap (fun port =>
        addTasksForRelevantNamespacesAndPort service namespaceNames port
          service.anns.fromPolicyPodLabelSelector))
  else .ok []

/-- The desired object meta of the from-world policy. -/
def fromWorldObjectMeta (service : Service) : ObjectMeta :=
  { name := "ingress-to-" ++ service.name ++ "-from-world", nspace := service.nspace }

/-- The entry of the from-world block of `reconcileDesiredPolicies`: emitted
whenever the from-world-to-ports annotation key is present, whatever its
value; the value itself is only parsed later, inside the task. -/
def fromWorldEntriesFor (service : Service) : List Entry :=
  match service.anns.fromWorldToPorts with
  | some _ => [(.upsertFromWorld service (fromWorldObjectMeta service), key (fromWorldObjectMeta service))]
  | none => []

/-- Embeds `Reconciler.reconcileDesiredPolicies`, returning the task list and
the desired object-meta key list.  The Go code appends to the two slices
`taskFns` and `desiredObjectMetaKeys` in lock step; here the three blocks are
built as `Entry` pair lists and projected at the end. -/
def reconcileDesiredPolicies (service : Service) (namespaceNames : List String) :
    Except Err (List Task × List String) :=
  match customEntriesFor service namespaceNames with
  | .error e => .error e
  | .ok customEntries =>
    let entries :=
      standardEntriesFor service namespaceNames ++ customEntries ++ fromWorldEntriesFor service
    .ok (entries.map Prod.fst, entries.map Prod.snd)

/-- Embeds `Reconciler.deleteStalePolicies`: a delete task for every listed
policy whose identity key is not among the desired keys. -/
def deleteStalePolicies (networkPolicyList : List ObjectMeta)
    (desiredObjectMetaKeys : List String) : List Task :=
  (networkPolicyList.filter (fun m => !(desiredObjectMetaKeys.contains (key m)))).map
    (fun m => .deletePolicy m)

/-- Whether a stored policy is the object addressed by `meta` (same namespace
and name). -/
def sameObject (p : NetworkPolicy) (meta : ObjectMeta) : Bool :=
  p.meta.nspace == meta.nspace && p.meta.name == meta.name

/-- Modelled from the spec: `controllerutils.GetAndCreateOrMergePatch`
(repository code not under src/) fetches the object by namespace and name,
creates it from the mutated empty object when absent, and otherwise applies
the mutation to the fetched object as a merge patch, leaving fields the
mutation does not set untouched. -/
def getAndCreateOrMergePatch (store : Store) (meta : ObjectMeta)
    (mutate : NetworkPolicy → NetworkPolicy) : Store :=
  if (store.networkPolicies.find? (fun p => sameObject p meta)).isSome then
    { store with networkPolicies :=
        store.networkPolicies.map (fun p => if sameObject p meta then mutate p else p) }
  else
    { store with networkPolicies := store.networkPolicies ++ [mutate { meta := meta }] }

/-- The two back-reference labels every derived policy carries
(`NetworkingServiceName` and `NetworkingServiceNamespace`). -/
def setBackRefLabels (service : Service) (meta : ObjectMeta) : ObjectMeta :=
  let ls := setLabel meta.labels networkingServiceName service.name
  { meta with labels := setLabel ls networkingServiceNamespace service.nspace }

/-- Embeds the mutation body of `Reconciler.reconcileIngressPolicy`.  The Go
code reads `service.Spec.Selector` directly; a nil selector becomes the empty
match-labels map (this branch is only reached with a non-nil selector). -/
def mutateIngressPolicy (service : Service) (port : NetworkPolicyPort)
    (namespaceName : String) (matchLabels : List (String × String))
    (networkPolicy : NetworkPolicy) : NetworkPolicy :=
  { networkPolicy with
    meta := setBackRefLabels service networkPolicy.meta
    ingress := [{ frm := [{ podSelector := some matchLabels,
                            namespaceSelector :=
                              ingressNamespaceSelectorFor service.nspace namespaceName }],
                  ports := [port] }]
    egress := []
    podSelector := service.selector.getD []
    policyTypes := [.ingress] }

/-- Embeds the mutation body of `Reconciler.reconcileEgressPolicy`. -/
def mutateEgressPolicy (service : Service) (port : NetworkPolicyPort)
    (namespaceName : String) (matchLabels : List (String × String))
    (networkPolicy : NetworkPolicy) : NetworkPolicy :=
  { networkPolicy with
    meta := setBackRefLabels service networkPolicy.meta
    ingress := []
    egress := [{ toPeers := [{ podSelector := some (service.selector.getD []),
                               namespaceSelector :=
                                 egressNamespaceSelectorFor service.nspace namespaceName }],
                 ports := [port] }]
    podSelector := matchLabels
    policyTypes := [.egress] }

/-- Embeds the mutation body of `Reconciler.reconcileIngressFromWorldPolicy`
(after its successful unmarshal of the from-world-to-ports value). -/
def mutateIngressFromWorldPolicy (service : Service) (ports : List NetworkPolicyPort)
    (networkPolicy : NetworkPolicy) : NetworkPolicy :=
  { networkPolicy with
    meta := setBackRefLabels service networkPolicy.meta
    ingress := [{ frm := [{ podSelector := some [], namespaceSelector := some [] },
                          { ipBlockCIDR := some "0.0.0.0/0" }],
                  ports := ports }]
    egress := []
    podSelector := service.selector.getD []
    policyTypes := [.ingress] }

/-- Modelled from the spec: `kubernetesutils.DeleteObject` (repository code
not under src/) deletes the object by namespace and name and treats an
already-absent object as success. -/
def deleteObject (store : Store) (meta : ObjectMeta) : Store :=
  { store with networkPolicies := store.networkPolicies.filter (fun p => !(sameObject p meta)) }

/-- Executes one task against the store: the body of the Go closure built in
`reconcileDesiredPolicies` resp. `deleteStalePolicies`.
`reconcileIngressFromWorldPolicy` unmarshals the from-world-to-ports value
first and fails without touching the store when it is malformed or absent. -/
def applyTask (store : Store) : Task → Except Err Store
  | .upsertIngress service port meta namespaceName matchLabels =>
    .ok (getAndCreateOrMergePatch store meta
      (mutateIngressPolicy service port namespaceName matchLabels))
  | .upsertEgress service port meta namespaceName matchLabels =>
    .ok (getAndCreateOrMergePatch store meta
      (mutateEgressPolicy service port namespaceName matchLabels))
  | .upsertFromWorld service meta =>
    match service.anns.fromWorldToPorts with
    | some (.parsed ports) =>
      .ok (getAndCreateOrMergePatch store meta (mutateIngressFromWorldPolicy service ports))
    | _ => .error .malformedFromWorldPorts
  | .deletePolicy meta => .ok (deleteObject store meta)

/-- Modelled from the spec: `flow.Parallel` (repository code not under src/)
runs all tasks of one batch, every task completes regardless of sibling
failures, and the first error is reported.  The tasks of a batch address
pairwise distinct keys, so the final store does not depend on their
interleaving and is realised as a fold. -/
def runTasks (store : Store) (tasks : List Task) : Store × Option Err :=
  tasks.foldl
    (fun acc t =>
      match applyTask acc.1 t with
      | .ok s => (s, acc.2)
      | .error e => (acc.1, acc.2 <|> some e))
    (store, none)

/-- Modelled from the spec: `controllerutils.AddFinalizers` (repository code
not under src/) patches the finalizer onto the service's metadata. -/
def addFinalizer (store : Store) (service : Service) : Store :=
  { store with services := store.services.map (fun s =>
      if s.nspace == service.nspace && s.name == service.name then
        { s with finalizers :=
            if finalizerName ∈ s.finalizers then s.finalizers
            else s.finalizers ++ [finalizerName] }
      else s) }

/-- Modelled from the spec: `controllerutils.RemoveFinalizers` (repository
code not under src/) removes the finalizer from the service's metadata. -/
def removeFinalizer (store : Store) (service : Service) : Store :=
  { store with services := store.services.map (fun s =>
      if s.nspace == service.nspace && s.name == service.name then
        { s with finalizers := s.finalizers.filter (fun f => f != finalizerName) }
      else s) }

/-- The observable outcome of one `Reconcile` call: the store after all
dispatched tasks completed, the returned error, and the schedule — the list
of `flow.Parallel` invocations in order, each with the task list it was
handed (tasks inside one batch run concurrently, mutually unordered). -/
structure ReconcileOutcome where
  store : Store
  result : Except Err Unit
  batches : List (List Task)
deriving Repr

/-- The label-filtered list of derived policies `Reconcile` obtains for a
service (`client.MatchingLabels` with the two back-reference labels, across
all namespaces; a metadata-only list). -/
def listPoliciesForService (store : Store) (service : Service) : List ObjectMeta :=
  (store.networkPolicies.filter (fun p =>
    labelsInclude p.meta.labels
      [(networkingServiceName, service.name),
       (networkingServiceNamespace, service.nspace)])).map (fun p => p.meta)

/-- The cleanup branch of `Reconciler.Reconcile` (service deleting, selector
nil, or namespace unhandled): nothing to do without the finalizer; otherwise
delete every listed policy in one parallel flow, then remove the finalizer. -/
def reconcileCleanup (store : Store) (networkPolicyList : List ObjectMeta)
    (service : Service) : ReconcileOutcome :=
  if finalizerName ∉ service.finalizers then ⟨store, .ok (), []⟩
  else
    let deleteTaskFns := deleteStalePolicies networkPolicyList []
    match runTasks store deleteTaskFns with
    | (s1, some e) => ⟨s1, .error e, [deleteTaskFns]⟩
    | (s1, none) => ⟨removeFinalizer s1 service, .ok (), [deleteTaskFns]⟩

/-- The active branch of `Reconciler.Reconcile`: ensure the finalizer,
resolve the relevant namespaces, build the desired upsert tasks and keys,
build the stale-delete tasks, and hand the concatenation of both task lists
to a single `flow.Parallel` invocation. -/
def reconcileActive (store : Store) (networkPolicyList : List ObjectMeta)
    (service : Service) : ReconcileOutcome :=
  let store1 :=
    if finalizerName ∈ service.finalizers then store else addFinalizer store service
  match fetchRelevantNamespaceNames store1 service with
  | .error e => ⟨store1, .error e, []⟩
  | .ok namespaceNames =>
    match reconcileDesiredPolicies service namespaceNames with
    | .error e => ⟨store1, .error e, []⟩
    | .ok (reconcileTaskFns, desiredObjectMetaKeys) =>
      let deleteTaskFns := deleteStalePolicies networkPolicyList desiredObjectMetaKeys
      let allTasks := reconcileTaskFns ++ deleteTaskFns
      match runTasks store1 allTasks with
      | (s2, some e) => ⟨s2, .error e, [allTasks]⟩
      | (s2, none) => ⟨s2, .ok (), [allTasks]⟩

/-- Embeds `Reconciler.Reconcile` for a request key
`reqNamespace/reqName`, with `selectors` the compiled namespace selectors of
the controller configuration. -/
def Reconcile (selectors : List (List (String × String) → Bool)) (store : Store)
    (reqNamespace reqName : String) : ReconcileOutcome :=
  match store.services.find? (fun s => s.nspace == reqNamespace && s.name == reqName) with
  | none => ⟨store, .ok (), []⟩
  | some service =>
    let networkPolicyList := listPoliciesForService store service
    match namespaceIsHandled selectors store service.nspace with
    | .error e => ⟨store, .error e, []⟩
    | .ok isNamespaceHandled =>
      if service.deletionTimestamp.isSome || service.selector.isNone || !isNamespaceHandled then
        reconcileCleanup store networkPolicyList service
      else
        reconcileActive store networkPolicyList service

/-- Whether a parallel batch contains both an upsert task and a delete task.
All tasks handed to one `flow.Parallel` invocation run concurrently with no
mutual ordering, so a batch mixing the two kinds means a delete is attempted
without waiting for the completion of the upserts. -/
def batchMixesUpsertAndDelete (b : List Task) : Bool :=
  b.any Task.isUpsert && b.any Task.isDelete

/-- The derivation tuple of the claimed identity-key contract: the policy
kind, the port (protocol plus numeric-or-named target port) and the target
namespace; the service is the fixed remaining component. -/
inductive PolicyDirection where
  | ingress
  | egress
deriving DecidableEq, Repr

/-- See `PolicyDirection`. -/
structure DerivationTuple where
  dir : PolicyDirection
  port : NetworkPolicyPort
  namespaceName : String
deriving DecidableEq, Repr

/-- The identity key the reconciler derives for a tuple: `policyIDFor`
composed with the respective object-meta builder and `key`. -/
def derivedPolicyKey (service : Service) (t : DerivationTuple) : String :=
  let policyID := policyIDFor service.name t.port
  match t.dir with
  | .ingress => key (ingressPolicyObjectMetaFor policyID service.nspace t.namespaceName)
  | .egress => key (egressPolicyObjectMetaFor policyID service.nspace t.namespaceName)

end NPol

namespace Prog

/-- A ManagedResource status condition reduced to the fields the progressing
reconciler reads and writes: its type and its status. -/
structure MRCondition where
  ctype : String
  status : String
deriving DecidableEq, Repr

/-- Constant `resourcesv1alpha1.ResourcesApplied`. -/
def resourcesApplied : String := "ResourcesApplied"

/-- Constant `resourcesv1alpha1.ResourcesProgressing`. -/
def resourcesProgressing : String := "ResourcesProgressing"

/-- Constant `gardencorev1beta1.ConditionTrue`. -/
def conditionTrue : String := "True"

/-- Constant `gardencorev1beta1.ConditionFalse`. -/
def conditionFalse : String := "False"

/-- Constant `gardencorev1beta1.ConditionProgressing`. -/
def conditionProgressing : String := "Progressing"

/-- Constant `gardencorev1beta1.ConditionUnknown`. -/
def conditionUnknown : String := "Unknown"

/-- One entry of `mr.Status.Resources`: the group/kind and key of a tracked
object. -/
structure ObjectRef where
  group : String
  kind : String
  nspace : String
  name : String
deriving DecidableEq, Repr

/-- Embeds the ManagedResource fields the progressing reconciler reads.
`ignored` abstracts `utils.IsIgnored(mr)` (an annotation check, code outside
src/) and `responsible` abstracts `r.ClassFilter.Active(mr)` (class match,
code outside src/): both are boolean functions of the object carried here as
fields. -/
structure ManagedResource where
  name : String
  nspace : String
  deletionTimestamp : Option Nat
  ignored : Bool
  responsible : Bool
  conditions : List MRCondition
  resources : List ObjectRef
deriving DecidableEq, Repr

/-- State of one workload object in the target cluster, as the progressing
checks observe it: `rolloutProgressing` abstracts the respective
`health.IsDeploymentProgressing` / `IsStatefulSetProgressing` /
`IsDaemonSetProgressing` predicate (code outside src/), and
`skipHealthCheck` whether its skip-health-check annotation equals `true`. -/
structure TargetObject where
  kind : String
  nspace : String
  name : String
  skipHealthCheck : Bool
  rolloutProgressing : Bool
deriving DecidableEq, Repr

/-- Modelled from the spec: `v1beta1helper.GetCondition` (repository code not
under src/) returns the condition with the given type, or nil. -/
def getCondition (conditions : List MRCondition) (ctype : String) : Option MRCondition :=
  conditions.find? (fun c => c.ctype == ctype)

/-- Modelled from the spec: `v1beta1helper.GetOrInitConditionWithClock`
(repository code not under src/) returns the condition with the given type,
or a fresh one with status Unknown. -/
def getOrInitCondition (conditions : List MRCondition) (ctype : String) : MRCondition :=
  match getCondition conditions ctype with
  | some c => c
  | none => { ctype := ctype, status := conditionUnknown }

/-- Modelled from the spec: `v1beta1helper.MergeConditions` (repository code
not under src/) replaces the condition of the same type, appending it when
absent. -/
def mergeConditions (conditions : List MRCondition) (c : MRCondition) : List MRCondition :=
  if (conditions.find? (fun x => x.ctype == c.ctype)).isSome then
    conditions.map (fun x => if x.ctype == c.ctype then c else x)
  else conditions ++ [c]

/-- Embeds `checkProgressing`: an object opting out via the skip-health-check
annotation is never progressing; otherwise the kind-specific rollout
predicate decides. -/
def checkProgressing (obj : TargetObject) : Bool :=
  if obj.skipHealthCheck then false else obj.rolloutProgressing

/-- The loop of the inner `reconcile` over `mr.Status.Resources`: skip refs
outside the `apps` group, skip kinds other than Deployment/StatefulSet/
DaemonSet, skip objects absent from the target cluster (not-found), and
return the first object whose progressing check fires. -/
def findProgressingObject (targets : List TargetObject) : List ObjectRef → Option TargetObject
  | [] => none
  | ref :: rest =>
    if ref.group != "apps" then findProgressingObject targets rest
    else if ref.kind != "Deployment" && ref.kind != "StatefulSet" && ref.kind != "DaemonSet" then
      findProgressingObject targets rest
    else
      match targets.find? (fun o =>
          o.kind == ref.kind && o.nspace == ref.nspace && o.name == ref.name) with
      | none => findProgressingObject targets rest
      | some obj =>
        if checkProgressing obj then some obj else findProgressingObject targets rest

/-- Observable outcome of one progressing reconciliation: the ManagedResource
conditions after the call and whether the result asks for a requeue after the
sync period. -/
structure ProgOutcome where
  conditions : List MRCondition
  requeue : Bool
deriving DecidableEq, Repr

/-- Embeds the inner `Reconciler.reconcile` of the progressing controller:
first progressing object found sets the Progressing condition to True;
otherwise it is set to False (ResourcesRolledOut) when that is a change; both
paths requeue after the sync period. -/
def progressingChecks (targets : List TargetObject) (mr : ManagedResource) : ProgOutcome :=
  let conditionResourcesProgressing := getOrInitCondition mr.conditions resourcesProgressing
  match findProgressingObject targets mr.resources with
  | some _ =>
    ⟨mergeConditions mr.conditions { conditionResourcesProgressing with status := conditionTrue },
     true⟩
  | none =>
    if conditionResourcesProgressing.status != conditionFalse then
      ⟨mergeConditions mr.conditions { conditionResourcesProgressing with status := conditionFalse },
       true⟩
    else
      ⟨mr.conditions, true⟩

/-- Embeds `Reconciler.Reconcile` of the progressing controller
(src/unnamed/part_004): fetch the ManagedResource (gone means stop), stop when
ignored, when responsibility changed or when marked for deletion, requeue
without any check while the ResourcesApplied condition is missing,
Progressing or False, and run the checks otherwise. -/
def progressingReconcile (store : List ManagedResource) (targets : List TargetObject)
    (reqNamespace reqName : String) : ProgOutcome :=
  match store.find? (fun m => m.nspace == reqNamespace && m.name == reqName) with
  | none => ⟨[], false⟩
  | some mr =>
    if mr.ignored then ⟨mr.conditions, false⟩
    else if !mr.responsible then ⟨mr.conditions, false⟩
    else if mr.deletionTimestamp.isSome then ⟨mr.conditions, false⟩
    else
      match getCondition mr.conditions resourcesApplied with
      | none => ⟨mr.conditions, true⟩
      | some conditionResourcesApplied =>
        if conditionResourcesApplied.status == conditionProgressing
            || conditionResourcesApplied.status == conditionFalse then
          ⟨mr.conditions, true⟩
        else
          progressingChecks targets mr

end Prog

namespace Prog

/-- A ManagedResource marked for deletion whose ResourcesApplied condition is
False (an apply is failing while the object is being torn down). -/
def mrDeletingAppliedFalse : ManagedResource :=
  { name := "mr1", nspace := "garden", deletionTimestamp := some 1, ignored := false,
    responsible := true,
    conditions := [{ ctype := resourcesApplied, status := conditionFalse },
                   { ctype := resourcesProgressing, status := conditionTrue }],
    resources := [] }

/-- A live, responsible, non-ignored ManagedResource whose ResourcesApplied
condition is False: exactly the gate state of the progressing reconciler. -/
def mrGateAppliedFalse : ManagedResource :=
  { name := "mr1", nspace := "garden", deletionTimestamp := none, ignored := false,
    responsible := true,
    conditions := [{ ctype := resourcesApplied, status := conditionFalse },
                   { ctype := resourcesProgressing, status := conditionTrue }],
    resources := [] }

end Prog

namespace NPol

/-- The service of the spec's Scenario A: `svc1` in `ns1`, selector
`app=foo`, one TCP port targeting 80, no annotations. -/
def svcScenarioA : Service :=
  { name := "svc1", nspace := "ns1", selector := some [("app", "foo")],
    ports := [{ protocol := "TCP", targetPort := .int 80 }],
    deletionTimestamp := none, finalizers := [finalizerName], anns := {} }

/-- The store of the spec's Scenario A: the service, its live namespace, and
no pre-existing policies. -/
def storeScenarioA : Store :=
  { services := [svcScenarioA],
    namespaces := [{ name := "ns1", labels := [], deletionTimestamp := none }],
    networkPolicies := [] }

/-- A snapshot in which the Scenario A service's own namespace `ns1` is
mid-deletion (non-nil deletion timestamp) while the service itself is not. -/
def storeTerminatingNs : Store :=
  { services := [svcScenarioA],
    namespaces := [{ name := "ns1", labels := [], deletionTimestamp := some 1 }],
    networkPolicies := [] }

/-- The Scenario A service with a malformed from-world-to-ports annotation
value. -/
def svcMalformedFromWorld : Service :=
  { svcScenarioA with anns := { fromWorldToPorts := some .malformed } }

/-- The snapshot for `svcMalformedFromWorld`: live namespace, no policies. -/
def storeMalformedFromWorld : Store :=
  { services := [svcMalformedFromWorld],
    namespaces := [{ name := "ns1", labels := [], deletionTimestamp := none }],
    networkPolicies := [] }

/-- The Scenario A service marked for deletion, still carrying the
finalizer. -/
def svcDeleting : Service :=
  { svcScenarioA with deletionTimestamp := some 1 }

/-- The snapshot for the cleanup branch: the deleting service and one derived
policy carrying its back-reference labels. -/
def storeCleanup : Store :=
  { services := [svcDeleting],
    namespaces := [{ name := "ns1", labels := [], deletionTimestamp := none }],
    networkPolicies :=
      [{ meta := { name := "ingress-to-svc1-tcp-9999", nspace := "ns1",
                   labels := [(networkingServiceName, "svc1"),
                              (networkingServiceNamespace, "ns1")] } }] }

/-- A stale derived policy carrying the Scenario A service's back-reference
labels but a key outside the desired set (an old port). -/
def stalePolicy : NetworkPolicy :=
  { meta := { name := "ingress-to-svc1-tcp-9999", nspace := "ns1",
              labels := [(networkingServiceName, "svc1"),
                         (networkingServiceNamespace, "ns1")] } }

/-- The snapshot for the upsert/delete ordering analysis: the Scenario A
service together with one stale derived policy. -/
def storeWithStalePolicy : Store :=
  { services := [svcScenarioA],
    namespaces := [{ name := "ns1", labels := [], deletionTimestamp := none }],
    networkPolicies := [stalePolicy] }

/-- Proof-auxiliary reference form of `Nat.toDigits 10`: the decimal digit
characters of a natural number, most significant first. -/
def bigEndianDigits (n : Nat) : List Char :=
  if h : n < 10 then [Nat.digitChar n]
  else bigEndianDigits (n / 10) ++ [Nat.digitChar (n % 10)]
decreasing_by exact Nat.div_lt_self (by omega) (by omega)

/-- Proof-auxiliary left inverse of decimal rendering: reads a digit string
back into a natural number. -/
def readNat (cs : List Char) : Nat :=
  cs.foldl (fun a c => a * 10 + (c.toNat - 48)) 0

end NPol

namespace NPol

theorem mem_insertName {names : List String} {x n : String}
    (h : n ∈ insertName names x) : n ∈ names ∨ n = x := by
  unfold insertName at h
  by_cases hx : x ∈ names
  · simp [hx] at h
    exact Or.inl h
  · simp [hx] at h
    rcases h with h | h
    · exact Or.inl h
    · exact Or.inr h

theorem self_mem_insertName (names : List String) (x : String) : x ∈ insertName names x := by
  unfold insertName
  by_cases hx : x ∈ names
  · simp [hx]
  · simp [hx]

theorem mem_insertLiveNamespaceNames {acc : List String} {namespaceList : List NamespaceMeta}
    {n : String} (h : n ∈ insertLiveNamespaceNames acc namespaceList) :
    n ∈ acc ∨ ∃ ns ∈ namespaceList, ns.deletionTimestamp = none ∧ ns.name = n := by
  induction namespaceList generalizing acc with
  | nil => exact Or.inl h
  | cons ns rest ih =>
    unfold insertLiveNamespaceNames at h
    simp only [List.foldl_cons] at h
    rcases ih h with h1 | h1
    · by_cases hdt : ns.deletionTimestamp = none
      · simp only [hdt, if_pos rfl] at h1
        rcases mem_insertName h1 with h2 | h2
        · exact Or.inl h2
        · exact Or.inr ⟨ns, List.mem_cons_self ns rest, hdt, h2.symm⟩
      · simp only [if_neg hdt] at h1
        exact Or.inl h1
    · rcases h1 with ⟨ns1, hmem, hdt, hname⟩
      exact Or.inr ⟨ns1, List.mem_cons_of_mem ns hmem, hdt, hname⟩

theorem mem_collectSelectorNamespaces {store : Store} {acc : List String}
    {sels : List MetaLabelSelector} {names : List String} {n : String}
    (hok : collectSelectorNamespaces store acc sels = .ok names) (h : n ∈ names) :
    n ∈ acc ∨ ∃ ns ∈ store.namespaces, ns.deletionTimestamp = none ∧ ns.name = n := by
  induction sels generalizing acc with
  | nil =>
    unfold collectSelectorNamespaces at hok
    cases hok
    exact Or.inl h
  | cons s rest ih =>
    unfold collectSelectorNamespaces at hok
    cases hsel : labelSelectorAsSelector s with
    | error e => rw [hsel] at hok; cases hok
    | ok sel =>
      rw [hsel] at hok
      rcases ih hok with h1 | h1
      · rcases mem_insertLiveNamespaceNames h1 with h2 | h2
        · exact Or.inl h2
        · rcases h2 with ⟨ns, hmem, hdt, hname⟩
          exact Or.inr ⟨ns, (List.mem_filter.mp hmem).1, hdt, hname⟩
      · exact Or.inr h1

theorem collectSelectorNamespaces_error_of_invalid {store : Store} {acc : List String}
    {sels : List MetaLabelSelector} (h : ∃ s ∈ sels, s.valid = false) :
    collectSelectorNamespaces store acc sels = .error .selectorParse := by
  induction sels generalizing acc with
  | nil => simp at h
  | cons s rest ih =>
    rcases h with ⟨s1, hmem, hvalid⟩
    rcases List.mem_cons.mp hmem with rfl | hmem
    · unfold collectSelectorNamespaces labelSelectorAsSelector
      simp [hvalid]
    · unfold collectSelectorNamespaces
      cases hsel : labelSelectorAsSelector s with
      | error e =>
        unfold labelSelectorAsSelector at hsel
        by_cases hv : s.valid
        · simp [hv] at hsel
        · simp [hv] at hsel
          simp [hsel.symm]
      | ok sel => exact ih ⟨s1, hmem, hvalid⟩

end NPol

namespace NPol

/-- Claim C9: staleness is decided solely by the `namespace/name` identity
key.  The delete phase schedules deletion of a listed policy exactly when its
key is absent from the desired key set — the listed input consists of object
metadata only, so a policy's spec content cannot influence the decision — and
with an empty desired set every listed policy is scheduled for deletion. -/
theorem c9_staleness_decided_by_identity_key (networkPolicyList : List ObjectMeta)
    (desiredObjectMetaKeys : List String) :
    (∀ m : ObjectMeta,
        Task.deletePolicy m ∈ deleteStalePolicies networkPolicyList desiredObjectMetaKeys ↔
          m ∈ networkPolicyList ∧ key m ∉ desiredObjectMetaKeys) ∧
      deleteStalePolicies networkPolicyList [] = networkPolicyList.map Task.deletePolicy := by
  constructor
  · intro m
    unfold deleteStalePolicies
    constructor
    · intro h
      rcases List.mem_map.mp h with ⟨m1, hmem, heq⟩
      cases heq
      have h2 := List.mem_filter.mp hmem
      refine ⟨h2.1, ?_⟩
      intro hk
      have h3 := h2.2
      simp only [Bool.not_eq_true', List.contains] at h3
      have h4 : List.elem (key m) desiredObjectMetaKeys = true := List.elem_iff.mpr hk
      rw [h3] at h4
      cases h4
    · intro ⟨hmem, hk⟩
      refine List.mem_map.mpr ⟨m, List.mem_filter.mpr ⟨hmem, ?_⟩, rfl⟩
      simp only [Bool.not_eq_true', List.contains]
      rw [Bool.eq_false_iff]
      intro helem
      exact hk (List.elem_iff.mp helem)
  · unfold deleteStalePolicies
    simp

/-- Claim C7: the namespace-is-handled gate is true for every namespace when
zero selectors are configured; otherwise it is true exactly when at least one
configured selector matches the namespace's current labels; and a namespace
that cannot be fetched (including not-found) yields an error, never a silent
false. -/
theorem c7_namespace_is_handled_gate (selectors : List (List (String × String) → Bool))
    (store : Store) (namespaceName : String) :
    (store.namespaces.find? (fun ns => ns.name == namespaceName) = none →
        namespaceIsHandled selectors store namespaceName =
          .error (.namespaceGet namespaceName)) ∧
      ∀ ns : NamespaceMeta, store.namespaces.find? (fun x => x.name == namespaceName) = some ns →
        (selectors = [] → namespaceIsHandled selectors store namespaceName = .ok true) ∧
        (selectors ≠ [] →
          (namespaceIsHandled selectors store namespaceName = .ok true ↔
            ∃ sel ∈ selectors, sel ns.labels = true)) := by
  constructor
  · intro hnone
    unfold namespaceIsHandled
    rw [hnone]
  · intro ns hfind
    constructor
    · intro hempty
      unfold namespaceIsHandled
      rw [hfind]
      simp [hempty]
    · intro hne
      unfold namespaceIsHandled
      rw [hfind]
      have : selectors.isEmpty = false := by
        cases selectors with
        | nil => exact absurd rfl hne
        | cons a l => rfl
      simp only [this, Bool.false_eq_true, if_false]
      constructor
      · intro h
        have h2 : selectors.any (fun sel => sel ns.labels) = true := by
          cases hany : selectors.any (fun sel => sel ns.labels) with
          | true => rfl
          | false => rw [hany] at h; cases h
        exact List.any_eq_true.mp h2
      · intro h
        have h2 := List.any_eq_true.mpr h
        rw [h2]

/-- Witness for C7 at a concrete input: zero configured selectors, one live
namespace object in the store. -/
theorem c7_namespace_is_handled_gate_witness :
    namespaceIsHandled []
      { services := [], namespaces := [{ name := "ns1", labels := [], deletionTimestamp := none }],
        networkPolicies := [] } "ns1" = .ok true := by
  have h := c7_namespace_is_handled_gate []
    { services := [], namespaces := [{ name := "ns1", labels := [], deletionTimestamp := none }],
      networkPolicies := [] } "ns1"
  exact (h.2 { name := "ns1", labels := [], deletionTimestamp := none } (by decide)).1 rfl

/-- Claim C10: whenever the from-world-to-ports annotation key is present on
the service — malformed value included — the key
`namespace/ingress-to-name-from-world` is part of the desired key set
computed before any parse of the value; consequently the delete phase never
schedules an existing from-world policy of that key, and a malformed value
surfaces only as the error of the from-world upsert task itself, which then
leaves the store untouched. -/
theorem c10_from_world_key_precedes_parse (service : Service) (namespaceNames : List String)
    (tasks : List Task) (keys : List String) (v : AnnValue (List NetworkPolicyPort))
    (hann : service.anns.fromWorldToPorts = some v)
    (hok : reconcileDesiredPolicies service namespaceNames = .ok (tasks, keys)) :
    key (fromWorldObjectMeta service) ∈ keys ∧
      Task.upsertFromWorld service (fromWorldObjectMeta service) ∈ tasks ∧
      (∀ networkPolicyList : List ObjectMeta, ∀ m ∈ networkPolicyList,
        key m = key (fromWorldObjectMeta service) →
          Task.deletePolicy m ∉ deleteStalePolicies networkPolicyList keys) ∧
      (v = .malformed → ∀ store : Store,
        applyTask store (.upsertFromWorld service (fromWorldObjectMeta service)) =
          .error .malformedFromWorldPorts) := by
  unfold reconcileDesiredPolicies at hok
  cases hcust : customEntriesFor service namespaceNames with
  | error e => rw [hcust] at hok; cases hok
  | ok customEntries =>
    rw [hcust] at hok
    simp only [Except.ok.injEq, Prod.mk.injEq] at hok
    obtain ⟨htasks, hkeys⟩ := hok
    have hfw : fromWorldEntriesFor service =
        [(.upsertFromWorld service (fromWorldObjectMeta service),
          key (fromWorldObjectMeta service))] := by
      unfold fromWorldEntriesFor
      rw [hann]
    have hkmem : key (fromWorldObjectMeta service) ∈ keys := by
      rw [← hkeys]
      refine List.mem_map.mpr ⟨(.upsertFromWorld service (fromWorldObjectMeta service),
        key (fromWorldObjectMeta service)), ?_, rfl⟩
      rw [List.append_assoc]
      refine List.mem_append_right _ ?_
      refine List.mem_append_right _ ?_
      rw [hfw]
      exact List.mem_cons_self _ _
    refine ⟨hkmem, ?_, ?_, ?_⟩
    · rw [← htasks]
      refine List.mem_map.mpr ⟨(.upsertFromWorld service (fromWorldObjectMeta service),
        key (fromWorldObjectMeta service)), ?_, rfl⟩
      rw [List.append_assoc]
      refine List.mem_append_right _ ?_
      refine List.mem_append_right _ ?_
      rw [hfw]
      exact List.mem_cons_self _ _
    · intro networkPolicyList m _hm hkey hdel
      unfold deleteStalePolicies at hdel
      rcases List.mem_map.mp hdel with ⟨m1, hmem1, heq1⟩
      cases heq1
      have h2 := (List.mem_filter.mp hmem1).2
      simp only [Bool.not_eq_true', List.contains] at h2
      rw [hkey] at h2
      rw [Bool.eq_false_iff] at h2
      exact h2 (List.elem_iff.mpr hkmem)
    · intro hmal store
      simp only [applyTask]
      rw [hann, hmal]

/-- Witness for C10 at a concrete input: the Scenario A service with a
malformed from-world-to-ports value. -/
theorem c10_from_world_key_precedes_parse_witness :
    key (fromWorldObjectMeta
        { svcScenarioA with anns := { fromWorldToPorts := some .malformed } }) ∈
      ["ns1/ingress-to-svc1-tcp-80", "ns1/egress-to-svc1-tcp-80",
       "ns1/ingress-to-svc1-from-world"] := by
  have h := c10_from_world_key_precedes_parse
    { svcScenarioA with anns := { fromWorldToPorts := some .malformed } } ["ns1"]
    ((reconcileDesiredPolicies
      { svcScenarioA with anns := { fromWorldToPorts := some .malformed } } ["ns1"]).toOption.getD
        ([], [])).1
    ["ns1/ingress-to-svc1-tcp-80", "ns1/egress-to-svc1-tcp-80",
     "ns1/ingress-to-svc1-from-world"]
    .malformed rfl rfl
  exact h.1

theorem mem_addTasks_standard (service : Service) (namespaceNames : List String)
    (port : NetworkPolicyPort) (n : String) (hn : n ∈ namespaceNames) :
    (Task.upsertIngress service port
        (ingressPolicyObjectMetaFor (policyIDFor service.name port) service.nspace n) n
        (matchLabelsForServiceAndNamespace (policyIDFor service.name port) service n),
      key (ingressPolicyObjectMetaFor (policyIDFor service.name port) service.nspace n)) ∈
        addTasksForRelevantNamespacesAndPort service namespaceNames port "" ∧
    (Task.upsertEgress service port
        (egressPolicyObjectMetaFor (policyIDFor service.name port) service.nspace n) n
        (matchLabelsForServiceAndNamespace (policyIDFor service.name port) service n),
      key (egressPolicyObjectMetaFor (policyIDFor service.name port) service.nspace n)) ∈
        addTasksForRelevantNamespacesAndPort service namespaceNames port "" := by
  constructor
  · simp only [addTasksForRelevantNamespacesAndPort, List.mem_flatMap]
    exact ⟨n, hn, by simp⟩
  · simp only [addTasksForRelevantNamespacesAndPort, List.mem_flatMap]
    exact ⟨n, hn, by simp⟩

/-- Claim C4: completeness of the desired set — for every service port and
every relevant namespace both an ingress and an egress policy are desired —
and the spec's Scenario A: `svc1` in `ns1` with selector `app=foo` and single
port TCP/80 and no annotations yields exactly the two policies
`ingress-to-svc1-tcp-80` and `egress-to-svc1-tcp-80`, both in `ns1`, whose
peer selector carries the label
`networking.resources.gardener.cloud/to-svc1-tcp-80=allowed`. -/
theorem c4_completeness_and_scenario_a :
    (∀ (service : Service) (namespaceNames : List String) (tasks : List Task)
        (keys : List String),
      reconcileDesiredPolicies service namespaceNames = .ok (tasks, keys) →
      ∀ p ∈ service.ports, ∀ n ∈ namespaceNames,
        (key (ingressPolicyObjectMetaFor
          (policyIDFor service.name { protocol := p.protocol, port := p.targetPort })
          service.nspace n) ∈ keys ∧
         Task.upsertIngress service { protocol := p.protocol, port := p.targetPort }
            (ingressPolicyObjectMetaFor
              (policyIDFor service.name { protocol := p.protocol, port := p.targetPort })
              service.nspace n) n
            (matchLabelsForServiceAndNamespace
              (policyIDFor service.name { protocol := p.protocol, port := p.targetPort })
              service n) ∈ tasks) ∧
        (key (egressPolicyObjectMetaFor
          (policyIDFor service.name { protocol := p.protocol, port := p.targetPort })
          service.nspace n) ∈ keys ∧
         Task.upsertEgress service { protocol := p.protocol, port := p.targetPort }
            (egressPolicyObjectMetaFor
              (policyIDFor service.name { protocol := p.protocol, port := p.targetPort })
              service.nspace n) n
            (matchLabelsForServiceAndNamespace
              (policyIDFor service.name { protocol := p.protocol, port := p.targetPort })
              service n) ∈ tasks)) ∧
    ((Reconcile [] storeScenarioA "ns1" "svc1").result = .ok () ∧
     (Reconcile [] storeScenarioA "ns1" "svc1").store.networkPolicies =
      [{ meta := { name := "ingress-to-svc1-tcp-80", nspace := "ns1",
                   labels := [(networkingServiceName, "svc1"),
                              (networkingServiceNamespace, "ns1")] },
         podSelector := [("app", "foo")],
         policyTypes := [.ingress],
         ingress := [{ frm := [{ podSelector :=
                                  some [("networking.resources.gardener.cloud/to-svc1-tcp-80",
                                         "allowed")],
                                 namespaceSelector := none, ipBlockCIDR := none }],
                       ports := [{ protocol := "TCP", port := .int 80 }] }],
         egress := [] },
       { meta := { name := "egress-to-svc1-tcp-80", nspace := "ns1",
                   labels := [(networkingServiceName, "svc1"),
                              (networkingServiceNamespace, "ns1")] },
         podSelector := [("networking.resources.gardener.cloud/to-svc1-tcp-80", "allowed")],
         policyTypes := [.egress],
         ingress := [],
         egress := [{ toPeers := [{ podSelector := some [("app", "foo")],
                                    namespaceSelector := none, ipBlockCIDR := none }],
                      ports := [{ protocol := "TCP", port := .int 80 }] }] }]) := by
  refine ⟨?_, rfl, by decide⟩
  intro service namespaceNames tasks keys hok p hp n hn
  unfold reconcileDesiredPolicies at hok
  cases hcust : customEntriesFor service namespaceNames with
  | error e => rw [hcust] at hok; cases hok
  | ok customEntries =>
    rw [hcust] at hok
    simp only [Except.ok.injEq, Prod.mk.injEq] at hok
    obtain ⟨htasks, hkeys⟩ := hok
    have hstd := mem_addTasks_standard service namespaceNames
      { protocol := p.protocol, port := p.targetPort } n hn
    have hstdmem : ∀ e : Entry,
        e ∈ addTasksForRelevantNamespacesAndPort service namespaceNames
          { protocol := p.protocol, port := p.targetPort } "" →
        e ∈ standardEntriesFor service namespaceNames ++ customEntries ++
          fromWorldEntriesFor service := by
      intro e he
      refine List.mem_append_left _ (List.mem_append_left _ ?_)
      unfold standardEntriesFor
      exact List.mem_flatMap.mpr ⟨p, hp, he⟩
    refine ⟨⟨?_, ?_⟩, ?_, ?_⟩
    · rw [← hkeys]; exact List.mem_map.mpr ⟨_, hstdmem _ hstd.1, rfl⟩
    · rw [← htasks]; exact List.mem_map.mpr ⟨_, hstdmem _ hstd.1, rfl⟩
    · rw [← hkeys]; exact List.mem_map.mpr ⟨_, hstdmem _ hstd.2, rfl⟩
    · rw [← htasks]; exact List.mem_map.mpr ⟨_, hstdmem _ hstd.2, rfl⟩

/-- Witness for C4 at a concrete input: the Scenario A service and its single
port and namespace. -/
theorem c4_completeness_and_scenario_a_witness :
    "ns1/ingress-to-svc1-tcp-80" ∈
      ["ns1/ingress-to-svc1-tcp-80", "ns1/egress-to-svc1-tcp-80"] := by
  have h := c4_completeness_and_scenario_a.1 svcScenarioA ["ns1"]
    ((reconcileDesiredPolicies svcScenarioA ["ns1"]).toOption.getD ([], [])).1
    ["ns1/ingress-to-svc1-tcp-80", "ns1/egress-to-svc1-tcp-80"] rfl
    { protocol := "TCP", targetPort := .int 80 } (by decide) "ns1" (by decide)
  exact h.1.1

theorem mem_insertName_of_mem {names : List String} {x n : String} (h : n ∈ names) :
    n ∈ insertName names x := by
  unfold insertName
  by_cases hx : x ∈ names
  · simpa [hx]
  · simp only [hx, if_neg]
    exact List.mem_append_left _ h

theorem mem_insertLiveNamespaceNames_of_mem {acc : List String}
    {namespaceList : List NamespaceMeta} {n : String} (h : n ∈ acc) :
    n ∈ insertLiveNamespaceNames acc namespaceList := by
  induction namespaceList generalizing acc with
  | nil => exact h
  | cons ns rest ih =>
    show n ∈ insertLiveNamespaceNames
      (if ns.deletionTimestamp = none then insertName acc ns.name else acc) rest
    apply ih
    by_cases hdt : ns.deletionTimestamp = none
    · simp only [hdt, if_pos rfl]
      exact mem_insertName_of_mem h
    · simp only [if_neg hdt]
      exact h

theorem mem_collectSelectorNamespaces_of_mem {store : Store} {acc : List String}
    {sels : List MetaLabelSelector} {names : List String} {n : String}
    (hok : collectSelectorNamespaces store acc sels = .ok names) (h : n ∈ acc) : n ∈ names := by
  induction sels generalizing acc with
  | nil =>
    unfold collectSelectorNamespaces at hok
    cases hok
    exact h
  | cons s rest ih =>
    unfold collectSelectorNamespaces at hok
    cases hsel : labelSelectorAsSelector s with
    | error e => rw [hsel] at hok; cases hok
    | ok sel =>
      rw [hsel] at hok
      exact ih hok (mem_insertLiveNamespaceNames_of_mem h)

/-- Claim C3 (amended): the resolver always returns the service's own
namespace — regardless of that namespace's own deletion state — and every
other member of the returned set comes from a namespace object of the
snapshot that carries no deletion timestamp; in particular no namespace with
a deletion timestamp is ever added on account of a matching selector from the
namespace-selectors annotation. -/
theorem c3_amended_selector_added_namespaces_are_live (store : Store) (service : Service)
    (names : List String) (hok : fetchRelevantNamespaceNames store service = .ok names) :
    service.nspace ∈ names ∧
      ∀ n ∈ names, n = service.nspace ∨
        ∃ ns ∈ store.namespaces, ns.deletionTimestamp = none ∧ ns.name = n := by
  unfold fetchRelevantNamespaceNames at hok
  have hself : service.nspace ∈ insertName [] service.nspace :=
    self_mem_insertName [] service.nspace
  cases hann : service.anns.namespaceSelectors with
  | none =>
    rw [hann] at hok
    refine ⟨mem_collectSelectorNamespaces_of_mem hok hself, ?_⟩
    intro n hn
    rcases mem_collectSelectorNamespaces hok hn with h1 | h1
    · rcases mem_insertName h1 with h2 | h2
      · cases h2
      · exact Or.inl h2
    · rcases h1 with ⟨ns, hmem, hdt, hname⟩
      exact Or.inr ⟨ns, hmem, hdt, hname⟩
  | some v =>
    cases v with
    | malformed => rw [hann] at hok; cases hok
    | parsed sels =>
      rw [hann] at hok
      refine ⟨mem_collectSelectorNamespaces_of_mem hok hself, ?_⟩
      intro n hn
      rcases mem_collectSelectorNamespaces hok hn with h1 | h1
      · rcases mem_insertName h1 with h2 | h2
        · cases h2
        · exact Or.inl h2
      · rcases h1 with ⟨ns, hmem, hdt, hname⟩
        exact Or.inr ⟨ns, hmem, hdt, hname⟩

/-- Witness for the amended C3 at a concrete input: Scenario A with a live
namespace. -/
theorem c3_amended_selector_added_namespaces_are_live_witness :
    "ns1" ∈ ["ns1"] := by
  have h := c3_amended_selector_added_namespaces_are_live storeScenarioA svcScenarioA ["ns1"] rfl
  exact h.1

theorem Reconcile_eq_cleanup {selectors : List (List (String × String) → Bool)} {store : Store}
    {reqNamespace reqName : String} {service : Service} {handled : Bool}
    (hfind : store.services.find? (fun s => s.nspace == reqNamespace && s.name == reqName) =
      some service)
    (hhandled : namespaceIsHandled selectors store service.nspace = .ok handled)
    (hcond : (service.deletionTimestamp.isSome || service.selector.isNone || !handled) = true) :
    Reconcile selectors store reqNamespace reqName =
      reconcileCleanup store (listPoliciesForService store service) service := by
  unfold Reconcile
  rw [hfind]
  simp [hhandled, hcond]

theorem Reconcile_eq_active {selectors : List (List (String × String) → Bool)} {store : Store}
    {reqNamespace reqName : String} {service : Service}
    (hfind : store.services.find? (fun s => s.nspace == reqNamespace && s.name == reqName) =
      some service)
    (hhandled : namespaceIsHandled selectors store service.nspace = .ok true)
    (hdel : service.deletionTimestamp = none) (hsel : service.selector ≠ none) :
    Reconcile selectors store reqNamespace reqName =
      reconcileActive store (listPoliciesForService store service) service := by
  unfold Reconcile
  rw [hfind]
  have hcond : (service.deletionTimestamp.isSome || service.selector.isNone ||
      !(true : Bool)) = false := by
    rw [hdel]
    cases hs : service.selector with
    | none => exact absurd hs hsel
    | some l => rfl
  simp only [hhandled, hcond, Bool.false_eq_true, if_false]

theorem collectSelectorNamespaces_error_only_selectorParse {store : Store} {acc : List String}
    {sels : List MetaLabelSelector} {e : Err}
    (h : collectSelectorNamespaces store acc sels = .error e) : e = .selectorParse := by
  induction sels generalizing acc with
  | nil => unfold collectSelectorNamespaces at h; cases h
  | cons s rest ih =>
    unfold collectSelectorNamespaces at h
    cases hsel : labelSelectorAsSelector s with
    | error e1 =>
      rw [hsel] at h
      unfold labelSelectorAsSelector at hsel
      by_cases hv : s.valid
      · simp [hv] at hsel
      · simp [hv] at hsel
        cases h
        exact hsel.symm
    | ok sel =>
      rw [hsel] at h
      exact ih h

theorem fetchRelevantNamespaceNames_error_cases {store : Store} {service : Service} {e : Err}
    (h : fetchRelevantNamespaceNames store service = .error e) :
    e = .malformedNamespaceSelectors ∨ e = .selectorParse := by
  unfold fetchRelevantNamespaceNames at h
  cases hann : service.anns.namespaceSelectors with
  | none =>
    rw [hann] at h
    exact Or.inr (collectSelectorNamespaces_error_only_selectorParse h)
  | some v =>
    cases v with
    | malformed =>
      rw [hann] at h
      cases h
      exact Or.inl rfl
    | parsed sels =>
      rw [hann] at h
      exact Or.inr (collectSelectorNamespaces_error_only_selectorParse h)

theorem addFinalizer_networkPolicies (store : Store) (service : Service) :
    (addFinalizer store service).networkPolicies = store.networkPolicies := rfl

theorem fetchRelevantNamespaceNames_error_of_malformed {store : Store} {service : Service}
    (hann : service.anns.namespaceSelectors = some .malformed) :
    fetchRelevantNamespaceNames store service = .error .malformedNamespaceSelectors := by
  unfold fetchRelevantNamespaceNames
  rw [hann]

theorem fetchRelevantNamespaceNames_error_of_invalid {store : Store} {service : Service}
    {sels : List MetaLabelSelector}
    (hann : service.anns.namespaceSelectors = some (.parsed sels))
    (hinv : ∃ s ∈ sels, s.valid = false) :
    fetchRelevantNamespaceNames store service = .error .selectorParse := by
  unfold fetchRelevantNamespaceNames
  rw [hann]
  exact collectSelectorNamespaces_error_of_invalid hinv

/-- Claim C2 (amended): a parse failure detected before any task is built —
malformed JSON on the namespace-selectors annotation, an unparsable label
selector in it, or malformed JSON on the from-policy-allowed-ports annotation
— aborts the reconciliation with the corresponding malformed-annotation
error before any derived policy is created or patched.  (By the C2
counterexample this does not extend to the from-world-to-ports annotation,
whose value is parsed inside its own upsert task while sibling upserts
proceed.) -/
theorem c2_amended_pre_task_parse_failure_applies_nothing
    (selectors : List (List (String × String) → Bool)) (store : Store)
    (reqNamespace reqName : String) (service : Service)
    (hfind : store.services.find? (fun s => s.nspace == reqNamespace && s.name == reqName) =
      some service)
    (hhandled : namespaceIsHandled selectors store service.nspace = .ok true)
    (hdel : service.deletionTimestamp = none) (hsel : service.selector ≠ none)
    (hbad : service.anns.namespaceSelectors = some .malformed ∨
      (∃ sels, service.anns.namespaceSelectors = some (.parsed sels) ∧
        ∃ s ∈ sels, s.valid = false) ∨
      (service.anns.fromPolicyPodLabelSelector ≠ "" ∧
        service.anns.fromPolicyAllowedPorts = some .malformed)) :
    (∃ e, (Reconcile selectors store reqNamespace reqName).result = .error e ∧
        (e = .malformedNamespaceSelectors ∨ e = .selectorParse ∨ e = .malformedAllowedPorts)) ∧
      (Reconcile selectors store reqNamespace reqName).store.networkPolicies =
        store.networkPolicies := by
  rw [Reconcile_eq_active hfind hhandled hdel hsel]
  unfold reconcileActive
  dsimp only
  generalize hstore1 : (if finalizerName ∈ service.finalizers then store
    else addFinalizer store service) = store1
  have hnp1 : store1.networkPolicies = store.networkPolicies := by
    rw [← hstore1]
    by_cases hf : finalizerName ∈ service.finalizers
    · rw [if_pos hf]
    · rw [if_neg hf]
      exact addFinalizer_networkPolicies store service
  cases hfetch : fetchRelevantNamespaceNames store1 service with
  | error e =>
    refine ⟨⟨e, rfl, ?_⟩, hnp1⟩
    rcases fetchRelevantNamespaceNames_error_cases hfetch with h | h
    · exact Or.inl h
    · exact Or.inr (Or.inl h)
  | ok namespaceNames =>
    have hcustbad : customEntriesFor service namespaceNames = .error .malformedAllowedPorts := by
      rcases hbad with h | h | h
      · rw [fetchRelevantNamespaceNames_error_of_malformed h] at hfetch
        cases hfetch
      · rcases h with ⟨sels, hann, hinv⟩
        rw [fetchRelevantNamespaceNames_error_of_invalid hann hinv] at hfetch
        cases hfetch
      · unfold customEntriesFor
        rcases h with ⟨hne, hmal⟩
        rw [hmal]
        simp [hne]
    have hrdp : reconcileDesiredPolicies service namespaceNames =
        .error .malformedAllowedPorts := by
      unfold reconcileDesiredPolicies
      rw [hcustbad]
    dsimp only
    rw [hrdp]
    exact ⟨⟨.malformedAllowedPorts, rfl, Or.inr (Or.inr rfl)⟩, hnp1⟩


/-- Witness for the amended C2 at a concrete input: the Scenario A service
with a malformed namespace-selectors value; the reconciliation leaves the
policy list empty. -/
theorem c2_amended_pre_task_parse_failure_applies_nothing_witness :
    (Reconcile []
      { services := [{ svcScenarioA with anns := { namespaceSelectors := some .malformed } }],
        namespaces := [{ name := "ns1", labels := [], deletionTimestamp := none }],
        networkPolicies := [] } "ns1" "svc1").store.networkPolicies = [] := by
  exact (c2_amended_pre_task_parse_failure_applies_nothing []
    { services := [{ svcScenarioA with anns := { namespaceSelectors := some .malformed } }],
      namespaces := [{ name := "ns1", labels := [], deletionTimestamp := none }],
      networkPolicies := [] } "ns1" "svc1"
    { svcScenarioA with anns := { namespaceSelectors := some .malformed } }
    rfl rfl rfl (by intro h; cases h) (Or.inl rfl)).2

/-- Claim C2 counterexample: the Scenario A service with a malformed
from-world-to-ports value.  Reconciliation returns the malformed-annotation
error, yet both per-port policies were created in the store by the very same
pass — a partial application of the derived policy set, refuting the claim
that no subset is created or patched for any malformed well-known
annotation. -/
theorem c2_counterexample_partial_application_on_malformed_from_world :
    (Reconcile [] storeMalformedFromWorld "ns1" "svc1").result =
        .error .malformedFromWorldPorts ∧
      storeMalformedFromWorld.networkPolicies = [] ∧
      (Reconcile [] storeMalformedFromWorld "ns1" "svc1").store.networkPolicies.map
          (fun p => key p.meta) =
        ["ns1/ingress-to-svc1-tcp-80", "ns1/egress-to-svc1-tcp-80"] := by
  exact ⟨rfl, rfl, by decide⟩

/-- Claim C3 counterexample: for the Scenario A service whose own namespace
`ns1` is mid-deletion, the resolver's returned set contains `ns1` although
the only namespace object of the snapshot named `ns1` carries a deletion
timestamp, and reconciliation then creates both derived policies in that
terminating namespace — refuting the claim that the returned set never
contains a namespace with a non-nil deletion timestamp. -/
theorem c3_counterexample_own_namespace_terminating :
    fetchRelevantNamespaceNames storeTerminatingNs svcScenarioA = .ok ["ns1"] ∧
      (∃ ns ∈ storeTerminatingNs.namespaces, ns.name = "ns1" ∧ ns.deletionTimestamp ≠ none) ∧
      (Reconcile [] storeTerminatingNs "ns1" "svc1").store.networkPolicies.map
          (fun p => p.meta.nspace) = ["ns1", "ns1"] := by
  exact ⟨rfl, by decide, by decide⟩

theorem deleteStalePolicies_nil (networkPolicyList : List ObjectMeta) :
    deleteStalePolicies networkPolicyList [] = networkPolicyList.map Task.deletePolicy := by
  unfold deleteStalePolicies
  simp

theorem runTasks_deletePolicies (metas : List ObjectMeta) : ∀ store : Store,
    runTasks store (metas.map Task.deletePolicy) =
      ({ store with networkPolicies :=
          store.networkPolicies.filter (fun p => !(metas.any (fun m => sameObject p m))) },
        none) := by
  induction metas with
  | nil =>
    intro store
    simp [runTasks]
  | cons m ms ih =>
    intro store
    have h1 : runTasks store ((m :: ms).map Task.deletePolicy) =
        runTasks (deleteObject store m) (ms.map Task.deletePolicy) := by
      simp [runTasks, applyTask]
    rw [h1, ih (deleteObject store m)]
    have h2 : (deleteObject store m).networkPolicies.filter
        (fun p => !(ms.any (fun m1 => sameObject p m1))) =
        store.networkPolicies.filter
          (fun p => !((m :: ms).any (fun m1 => sameObject p m1))) := by
      unfold deleteObject
      rw [List.filter_filter]
      apply List.filter_congr
      intro a _
      simp [List.any_cons, Bool.not_or, Bool.and_comm]
    have h3 : (deleteObject store m).services = store.services := rfl
    have h4 : (deleteObject store m).namespaces = store.namespaces := rfl
    cases store
    simp_all [deleteObject]

/-- Claim C6: for a service that is deleting, has a nil pod selector, or
lives in an unhandled namespace — if the finalizer is absent, `Reconcile`
returns success without mutating the store; otherwise it deletes every
derived policy carrying the service's back-reference labels (assuming the
store's policy keys are unique, the Kubernetes store invariant) and removes
the finalizer from the service. -/
theorem c6_cleanup_branch (selectors : List (List (String × String) → Bool)) (store : Store)
    (reqNamespace reqName : String) (service : Service) (handled : Bool)
    (hfind : store.services.find? (fun s => s.nspace == reqNamespace && s.name == reqName) =
      some service)
    (hhandled : namespaceIsHandled selectors store service.nspace = .ok handled)
    (hcond : (service.deletionTimestamp.isSome || service.selector.isNone || !handled) = true)
    (hnodup : (store.networkPolicies.map (fun p => (p.meta.nspace, p.meta.name))).Nodup) :
    (finalizerName ∉ service.finalizers →
      Reconcile selectors store reqNamespace reqName = ⟨store, .ok (), []⟩) ∧
    (finalizerName ∈ service.finalizers →
      (Reconcile selectors store reqNamespace reqName).result = .ok () ∧
      (Reconcile selectors store reqNamespace reqName).store.networkPolicies =
        store.networkPolicies.filter (fun p => !(labelsInclude p.meta.labels
          [(networkingServiceName, service.name),
           (networkingServiceNamespace, service.nspace)])) ∧
      ∀ s ∈ (Reconcile selectors store reqNamespace reqName).store.services,
        s.nspace = service.nspace → s.name = service.name →
          finalizerName ∉ s.finalizers) := by
  rw [Reconcile_eq_cleanup hfind hhandled hcond]
  constructor
  · intro hf
    unfold reconcileCleanup
    rw [if_pos hf]
  · intro hf
    unfold reconcileCleanup
    rw [if_neg (by simpa using hf)]
    dsimp only
    rw [deleteStalePolicies_nil, runTasks_deletePolicies]
    refine ⟨rfl, ?_, ?_⟩
    · show store.networkPolicies.filter _ = _
      apply List.filter_congr
      intro p hp
      have heq : ((listPoliciesForService store service).any (fun m => sameObject p m)) =
          labelsInclude p.meta.labels
            [(networkingServiceName, service.name),
             (networkingServiceNamespace, service.nspace)] := by
        cases hlab : labelsInclude p.meta.labels
          [(networkingServiceName, service.name),
           (networkingServiceNamespace, service.nspace)] with
        | true =>
          refine List.any_eq_true.mpr ⟨p.meta, ?_, ?_⟩
          · unfold listPoliciesForService
            exact List.mem_map.mpr ⟨p, List.mem_filter.mpr ⟨hp, hlab⟩, rfl⟩
          · simp [sameObject]
        | false =>
          refine Bool.eq_false_iff.mpr ?_
          intro hany
          rcases List.any_eq_true.mp hany with ⟨m, hm, hsame⟩
          unfold listPoliciesForService at hm
          rcases List.mem_map.mp hm with ⟨q, hq, rfl⟩
          have hqmem := (List.mem_filter.mp hq).1
          have hqlab := (List.mem_filter.mp hq).2
          have hpair : (p.meta.nspace, p.meta.name) = (q.meta.nspace, q.meta.name) := by
            unfold sameObject at hsame
            rw [Bool.and_eq_true] at hsame
            obtain ⟨h1, h2⟩ := hsame
            simp only [beq_iff_eq] at h1 h2
            rw [h1, h2]
          have hpq : p = q := List.inj_on_of_nodup_map hnodup hp hqmem hpair
          rw [hpq] at hlab
          rw [hqlab] at hlab
          cases hlab
      rw [heq]
    · intro s hs hns hname
      unfold removeFinalizer at hs
      rcases List.mem_map.mp hs with ⟨x, hx, rfl⟩
      by_cases hc : (x.nspace == service.nspace && x.name == service.name) = true
      · rw [if_pos hc]
        intro hmem
        have h2 := (List.mem_filter.mp hmem).2
        simp at h2
      · rw [if_neg hc]
        rw [if_neg hc] at hns hname
        exact absurd (by simp [hns, hname]) hc

/-- Witness for C6 at a concrete input: the deleting Scenario A service with
its finalizer and one labelled derived policy in the store; the
reconciliation succeeds and leaves no derived policy behind. -/
theorem c6_cleanup_branch_witness :
    (Reconcile [] storeCleanup "ns1" "svc1").result = .ok () ∧
      (Reconcile [] storeCleanup "ns1" "svc1").store.networkPolicies = [] := by
  have h := (c6_cleanup_branch [] storeCleanup "ns1" "svc1" svcDeleting true rfl rfl
    (by decide) (by decide)).2 (by decide)
  exact ⟨h.1, h.2.1⟩

theorem mem_deleteStalePolicies {networkPolicyList : List ObjectMeta} {keys : List String}
    {t : Task} (h : t ∈ deleteStalePolicies networkPolicyList keys) :
    t.isDelete = true ∧ key t.meta ∉ keys := by
  unfold deleteStalePolicies at h
  rcases List.mem_map.mp h with ⟨m, hm, rfl⟩
  refine ⟨rfl, ?_⟩
  have h2 := (List.mem_filter.mp hm).2
  simp only [Bool.not_eq_true', List.contains] at h2
  rw [Bool.eq_false_iff] at h2
  intro hk
  exact h2 (List.elem_iff.mpr hk)

theorem entry_sound_addTasks {service : Service} {namespaceNames : List String}
    {port : NetworkPolicyPort} {customPodLabelSelector : String} {e : Entry}
    (h : e ∈ addTasksForRelevantNamespacesAndPort service namespaceNames port
      customPodLabelSelector) :
    e.1.isUpsert = true ∧ e.2 = key e.1.meta := by
  unfold addTasksForRelevantNamespacesAndPort at h
  rcases List.mem_flatMap.mp h with ⟨n, _, hmem⟩
  rcases List.mem_cons.mp hmem with rfl | hmem
  · exact ⟨rfl, rfl⟩
  · rcases List.mem_cons.mp hmem with rfl | hmem
    · exact ⟨rfl, rfl⟩
    · cases hmem

theorem customEntriesFor_sound {service : Service} {namespaceNames : List String}
    {customEntries : List Entry}
    (h : customEntriesFor service namespaceNames = .ok customEntries) :
    ∀ e ∈ customEntries, e.1.isUpsert = true ∧ e.2 = key e.1.meta := by
  unfold customEntriesFor at h
  by_cases hcs : service.anns.fromPolicyPodLabelSelector != ""
  · rw [if_pos hcs] at h
    cases hap : service.anns.fromPolicyAllowedPorts with
    | none =>
      rw [hap] at h
      cases h
      intro e he
      cases he
    | some v =>
      cases v with
      | malformed => rw [hap] at h; cases h
      | parsed ports =>
        rw [hap] at h
        cases h
        intro e he
        rcases List.mem_flatMap.mp he with ⟨p, _, hmem⟩
        exact entry_sound_addTasks hmem
  · rw [if_neg hcs] at h
    cases h
    intro e he
    cases he

theorem reconcileDesiredPolicies_sound {service : Service} {namespaceNames : List String}
    {tasks : List Task} {keys : List String}
    (hok : reconcileDesiredPolicies service namespaceNames = .ok (tasks, keys)) :
    ∀ t ∈ tasks, t.isUpsert = true ∧ key t.meta ∈ keys := by
  unfold reconcileDesiredPolicies at hok
  cases hcust : customEntriesFor service namespaceNames with
  | error e => rw [hcust] at hok; cases hok
  | ok customEntries =>
    rw [hcust] at hok
    simp only [Except.ok.injEq, Prod.mk.injEq] at hok
    obtain ⟨htasks, hkeys⟩ := hok
    have hsound : ∀ e ∈ standardEntriesFor service namespaceNames ++ customEntries ++
        fromWorldEntriesFor service, e.1.isUpsert = true ∧ e.2 = key e.1.meta := by
      intro e he
      rcases List.mem_append.mp he with he1 | he1
      · rcases List.mem_append.mp he1 with he2 | he2
        · unfold standardEntriesFor at he2
          rcases List.mem_flatMap.mp he2 with ⟨p, _, hmem⟩
          exact entry_sound_addTasks hmem
        · exact customEntriesFor_sound hcust e he2
      · unfold fromWorldEntriesFor at he1
        cases hfw : service.anns.fromWorldToPorts with
        | some v =>
          rw [hfw] at he1
          have he2 : e ∈ [((Task.upsertFromWorld service (fromWorldObjectMeta service) : Task),
            key (fromWorldObjectMeta service))] := he1
          rcases List.mem_cons.mp he2 with rfl | he3
          · exact ⟨rfl, rfl⟩
          · cases he3
        | none =>
          rw [hfw] at he1
          have he2 : e ∈ ([] : List Entry) := he1
          cases he2
    intro t ht
    rw [← htasks] at ht
    rcases List.mem_map.mp ht with ⟨e, he, rfl⟩
    obtain ⟨hu, hk⟩ := hsound e he
    refine ⟨hu, ?_⟩
    rw [← hkeys, ← hk]
    exact List.mem_map.mpr ⟨e, he, rfl⟩

theorem reconcileCleanup_batches (store : Store) (networkPolicyList : List ObjectMeta)
    (service : Service) :
    ∀ b ∈ (reconcileCleanup store networkPolicyList service).batches, ∀ t ∈ b,
      t.isDelete = true := by
  unfold reconcileCleanup
  by_cases hf : finalizerName ∉ service.finalizers
  · rw [if_pos hf]
    intro b hb
    cases hb
  · rw [if_neg hf]
    dsimp only
    cases hrun : runTasks store (deleteStalePolicies networkPolicyList []) with
    | mk s1 e =>
      cases e with
      | none =>
        dsimp only
        intro b hb t ht
        rcases List.mem_cons.mp hb with rfl | hb1
        · exact (mem_deleteStalePolicies ht).1
        · cases hb1
      | some err =>
        dsimp only
        intro b hb t ht
        rcases List.mem_cons.mp hb with rfl | hb1
        · exact (mem_deleteStalePolicies ht).1
        · cases hb1

theorem reconcileActive_batches (store : Store) (networkPolicyList : List ObjectMeta)
    (service : Service) :
    ∀ b ∈ (reconcileActive store networkPolicyList service).batches,
      ∀ t ∈ b, t.isUpsert = true → ∀ t' ∈ b, t'.isDelete = true →
        key t.meta ≠ key t'.meta := by
  unfold reconcileActive
  dsimp only
  generalize (if finalizerName ∈ service.finalizers then store
    else addFinalizer store service) = store1
  cases hfetch : fetchRelevantNamespaceNames store1 service with
  | error e =>
    intro b hb
    cases hb
  | ok namespaceNames =>
    dsimp only
    cases hrdp : reconcileDesiredPolicies service namespaceNames with
    | error e =>
      intro b hb
      cases hb
    | ok pair =>
      obtain ⟨reconcileTaskFns, desiredObjectMetaKeys⟩ := pair
      dsimp only
      have hsound := reconcileDesiredPolicies_sound hrdp
      have hmain : ∀ t ∈ reconcileTaskFns ++
            deleteStalePolicies networkPolicyList desiredObjectMetaKeys,
          t.isUpsert = true →
          ∀ t' ∈ reconcileTaskFns ++
            deleteStalePolicies networkPolicyList desiredObjectMetaKeys,
          t'.isDelete = true → key t.meta ≠ key t'.meta := by
        intro t ht hu t' ht' hd
        have htmem : t ∈ reconcileTaskFns := by
          rcases List.mem_append.mp ht with h1 | h1
          · exact h1
          · have := (mem_deleteStalePolicies h1).1
            unfold Task.isUpsert at hu
            rw [this] at hu
            cases hu
        have htmem' : t' ∈ deleteStalePolicies networkPolicyList desiredObjectMetaKeys := by
          rcases List.mem_append.mp ht' with h1 | h1
          · have := (hsound t' h1).1
            unfold Task.isUpsert at this
            rw [hd] at this
            cases this
          · exact h1
        have hk := (hsound t htmem).2
        have hk' := (mem_deleteStalePolicies htmem').2
        intro heq
        rw [heq] at hk
        exact hk' hk
      cases hrun : runTasks store1 (reconcileTaskFns ++
          deleteStalePolicies networkPolicyList desiredObjectMetaKeys) with
      | mk s2 e =>
        cases e with
        | none =>
          dsimp only
          intro b hb
          rcases List.mem_cons.mp hb with rfl | hb1
          · exact hmain
          · cases hb1
        | some err =>
          dsimp only
          intro b hb
          rcases List.mem_cons.mp hb with rfl | hb1
          · exact hmain
          · cases hb1

/-- Claim C1 (amended): the reconciler hands upserts and stale deletes to one
and the same `flow.Parallel` invocation, so there is no completion barrier
between the two phases; what does hold, for every service state and every
set of existing derived objects, is that no upsert task and no delete task of
the same batch ever address the same identity key — the delete set is
computed against the desired key set — so a newly-desired object is never
treated as stale despite the missing barrier. -/
theorem c1_amended_no_batch_deletes_a_desired_key
    (selectors : List (List (String × String) → Bool)) (store : Store)
    (reqNamespace reqName : String) :
    ∀ b ∈ (Reconcile selectors store reqNamespace reqName).batches,
      ∀ t ∈ b, t.isUpsert = true → ∀ t' ∈ b, t'.isDelete = true →
        key t.meta ≠ key t'.meta := by
  unfold Reconcile
  cases hfind : store.services.find? (fun s => s.nspace == reqNamespace && s.name == reqName) with
  | none =>
    intro b hb
    cases hb
  | some service =>
    dsimp only
    cases hh : namespaceIsHandled selectors store service.nspace with
    | error e =>
      intro b hb
      cases hb
    | ok isNamespaceHandled =>
      dsimp only
      by_cases hcond : (service.deletionTimestamp.isSome || service.selector.isNone ||
          !isNamespaceHandled) = true
      · rw [if_pos hcond]
        intro b hb t ht hu t' ht' hd
        have := reconcileCleanup_batches store (listPoliciesForService store service) service
          b hb t ht
        unfold Task.isUpsert at hu
        rw [this] at hu
        cases hu
      · rw [if_neg hcond]
        exact reconcileActive_batches store (listPoliciesForService store service) service

/-- Witness for the amended C1 at a concrete input: inside the single batch
of the stale-policy scenario, the ingress upsert task and the stale delete
task address different identity keys. -/
theorem c1_amended_no_batch_deletes_a_desired_key_witness :
    key (Task.upsertIngress svcScenarioA { protocol := "TCP", port := .int 80 }
        { name := "ingress-to-svc1-tcp-80", nspace := "ns1" } "ns1"
        [("networking.resources.gardener.cloud/to-svc1-tcp-80", "allowed")]).meta ≠
      key (Task.deletePolicy stalePolicy.meta).meta := by
  have h := c1_amended_no_batch_deletes_a_desired_key [] storeWithStalePolicy "ns1" "svc1"
  exact h
    [Task.upsertIngress svcScenarioA { protocol := "TCP", port := .int 80 }
        { name := "ingress-to-svc1-tcp-80", nspace := "ns1" } "ns1"
        [("networking.resources.gardener.cloud/to-svc1-tcp-80", "allowed")],
      Task.upsertEgress svcScenarioA { protocol := "TCP", port := .int 80 }
        { name := "egress-to-svc1-tcp-80", nspace := "ns1" } "ns1"
        [("networking.resources.gardener.cloud/to-svc1-tcp-80", "allowed")],
      Task.deletePolicy stalePolicy.meta]
    (by decide)
    (Task.upsertIngress svcScenarioA { protocol := "TCP", port := .int 80 }
      { name := "ingress-to-svc1-tcp-80", nspace := "ns1" } "ns1"
      [("networking.resources.gardener.cloud/to-svc1-tcp-80", "allowed")])
    (by decide) rfl
    (Task.deletePolicy stalePolicy.meta)
    (by decide) rfl

/-- Claim C1 counterexample: at the Scenario A service with one stale derived
policy in the store, the reconciler's schedule is a single `flow.Parallel`
batch containing the two upsert tasks together with the delete task of the
stale policy.  Tasks of one parallel batch run concurrently with no mutual
ordering, so the delete is attempted without any guarantee that the upserts
have completed — refuting the claimed barrier ordering all upserts before
any delete for every service state. -/
theorem c1_counterexample_upserts_and_deletes_share_one_parallel_batch :
    (Reconcile [] storeWithStalePolicy "ns1" "svc1").batches.any
        batchMixesUpsertAndDelete = true ∧
      ((Reconcile [] storeWithStalePolicy "ns1" "svc1").batches.map
        (fun b => b.length)) = [3] := by
  exact ⟨by decide, by decide⟩

end NPol

namespace Prog

/-- Claim C8 (amended): while the ResourcesApplied condition is missing,
False or Progressing, the progressing reconciler never evaluates or updates
the ResourcesProgressing condition — the conditions are returned unchanged —
and it requeues after the sync period unless one of the earlier guards
(ignored, responsibility changed, marked for deletion) has already ended the
reconciliation without a requeue. -/
theorem c8_amended_progressing_gate (store : List ManagedResource)
    (targets : List TargetObject) (reqNamespace reqName : String) (mr : ManagedResource)
    (hfind : store.find? (fun m => m.nspace == reqNamespace && m.name == reqName) = some mr)
    (hgate : getCondition mr.conditions resourcesApplied = none ∨
      ∃ c, getCondition mr.conditions resourcesApplied = some c ∧
        (c.status = conditionProgressing ∨ c.status = conditionFalse)) :
    (progressingReconcile store targets reqNamespace reqName).conditions = mr.conditions ∧
      (mr.ignored = false → mr.responsible = true → mr.deletionTimestamp = none →
        (progressingReconcile store targets reqNamespace reqName).requeue = true) := by
  unfold progressingReconcile
  rw [hfind]
  dsimp only
  by_cases hig : mr.ignored = true
  · rw [if_pos hig]
    exact ⟨rfl, fun h => by rw [h] at hig; cases hig⟩
  · rw [if_neg hig]
    by_cases hresp : mr.responsible = true
    · have hr2 : ¬((!mr.responsible) = true) := by
        rw [hresp]
        simp
      rw [if_neg hr2]
      by_cases hdel : mr.deletionTimestamp.isSome = true
      · rw [if_pos hdel]
        refine ⟨rfl, fun _ _ hnone => ?_⟩
        rw [hnone] at hdel
        cases hdel
      · rw [if_neg hdel]
        rcases hgate with hnone | ⟨c, hsome, hstat⟩
        · rw [hnone]
          exact ⟨rfl, fun _ _ _ => rfl⟩
        · rw [hsome]
          dsimp only
          have hst : (c.status == conditionProgressing || c.status == conditionFalse) = true := by
            rcases hstat with h | h
            · rw [h]
              simp
            · rw [h]
              simp
          rw [if_pos hst]
          exact ⟨rfl, fun _ _ _ => rfl⟩
    · have hr2 : (!mr.responsible) = true := by
        cases hr : mr.responsible with
        | true => exact absurd hr hresp
        | false => rfl
      rw [if_pos hr2]
      exact ⟨rfl, fun _ hrt _ => absurd hrt hresp⟩

/-- Witness for the amended C8 at a concrete input: a live, responsible,
non-ignored ManagedResource whose Applied condition is False; the
reconciliation returns the conditions unchanged and requeues. -/
theorem c8_amended_progressing_gate_witness :
    (progressingReconcile [mrGateAppliedFalse] [] "garden" "mr1").conditions =
        mrGateAppliedFalse.conditions ∧
      (progressingReconcile [mrGateAppliedFalse] [] "garden" "mr1").requeue = true := by
  have h := c8_amended_progressing_gate [mrGateAppliedFalse] [] "garden" "mr1"
    mrGateAppliedFalse rfl
    (Or.inr ⟨{ ctype := resourcesApplied, status := conditionFalse }, rfl, Or.inr rfl⟩)
  exact ⟨h.1, h.2 rfl rfl rfl⟩

/-- Claim C8 counterexample: a ManagedResource marked for deletion whose
Applied condition is False.  The progressing reconciler does leave the
Progressing condition untouched, but it stops without requeueing — refuting
the claim that in that state it requeues for every ManagedResource. -/
theorem c8_counterexample_deleting_mr_stops_without_requeue :
    getCondition mrDeletingAppliedFalse.conditions resourcesApplied =
        some { ctype := resourcesApplied, status := conditionFalse } ∧
      (progressingReconcile [mrDeletingAppliedFalse] [] "garden" "mr1").conditions =
        mrDeletingAppliedFalse.conditions ∧
      (progressingReconcile [mrDeletingAppliedFalse] [] "garden" "mr1").requeue = false := by
  exact ⟨by decide, by decide, by decide⟩

end Prog

namespace NPol

theorem toDigitsCore_eq_bigEndian : ∀ (f n : Nat) (acc : List Char), n < f →
    Nat.toDigitsCore 10 f n acc = bigEndianDigits n ++ acc := by
  intro f
  induction f with
  | zero => intro n acc h; omega
  | succ f ih =>
    intro n acc h
    unfold Nat.toDigitsCore
    by_cases hz : n / 10 = 0
    · have hn : n < 10 := by omega
      rw [if_pos hz]
      rw [bigEndianDigits, dif_pos hn, Nat.mod_eq_of_lt hn]
      rfl
    · have hn : ¬ n < 10 := by
        intro hlt
        exact hz (Nat.div_eq_of_lt hlt)
      rw [if_neg hz]
      have hdiv : n / 10 < f := by
        have h1 : n / 10 < n := Nat.div_lt_self (by omega) (by omega)
        omega
      rw [ih (n / 10) (Nat.digitChar (n % 10) :: acc) hdiv]
      conv_rhs => rw [bigEndianDigits]
      rw [dif_neg hn, List.append_assoc]
      rfl

theorem repr_data_eq_bigEndian (n : Nat) : (Nat.repr n).data = bigEndianDigits n := by
  show (Nat.toDigits 10 n).asString.data = bigEndianDigits n
  unfold Nat.toDigits
  rw [toDigitsCore_eq_bigEndian (n + 1) n [] (by omega)]
  simp [List.asString]

theorem readNat_append_singleton (l : List Char) (c : Char) :
    readNat (l ++ [c]) = readNat l * 10 + (c.toNat - 48) := by
  unfold readNat
  rw [List.foldl_append]
  rfl

theorem digitChar_toNat {d : Nat} (h : d < 10) : (Nat.digitChar d).toNat = d + 48 := by
  interval_cases d <;> decide

theorem readNat_bigEndian (n : Nat) : readNat (bigEndianDigits n) = n := by
  induction n using Nat.strong_induction_on with
  | _ n ih =>
    by_cases h : n < 10
    · rw [bigEndianDigits, dif_pos h]
      show 0 * 10 + ((Nat.digitChar n).toNat - 48) = n
      rw [digitChar_toNat h]
      omega
    · rw [bigEndianDigits, dif_neg h]
      rw [readNat_append_singleton]
      rw [ih (n / 10) (Nat.div_lt_self (by omega) (by omega))]
      rw [digitChar_toNat (Nat.mod_lt n (by omega))]
      omega

theorem bigEndian_mem_digits {n : Nat} : ∀ c ∈ bigEndianDigits n,
    c ∈ ['0', '1', '2', '3', '4', '5', '6', '7', '8', '9'] := by
  induction n using Nat.strong_induction_on with
  | _ n ih =>
    intro c hc
    by_cases h : n < 10
    · rw [bigEndianDigits, dif_pos h] at hc
      rcases List.mem_cons.mp hc with rfl | hc
      · interval_cases n <;> decide
      · cases hc
    · rw [bigEndianDigits, dif_neg h] at hc
      rcases List.mem_append.mp hc with hc | hc
      · exact ih (n / 10) (Nat.div_lt_self (by omega) (by omega)) c hc
      · rcases List.mem_cons.mp hc with rfl | hc
        · have h10 : n % 10 < 10 := Nat.mod_lt n (by omega)
          interval_cases hh : (n % 10) <;> simp_all <;> decide
        · cases hc

theorem repr_not_mem_dash (n : Nat) : ('-') ∉ (Nat.repr n).data := by
  rw [repr_data_eq_bigEndian]
  intro h
  have := bigEndian_mem_digits _ h
  simp at this

theorem repr_not_mem_slash (n : Nat) : ('/') ∉ (Nat.repr n).data := by
  rw [repr_data_eq_bigEndian]
  intro h
  have := bigEndian_mem_digits _ h
  simp at this

theorem append_sep_inj {c : Char} : ∀ {l1 l2 r1 r2 : List Char},
    c ∉ l1 → c ∉ l2 → l1 ++ c :: r1 = l2 ++ c :: r2 → l1 = l2 ∧ r1 = r2 := by
  intro l1
  induction l1 with
  | nil =>
    intro l2 r1 r2 _ h2 h
    cases l2 with
    | nil =>
      simp only [List.nil_append] at h
      cases h
      exact ⟨rfl, rfl⟩
    | cons b t =>
      simp only [List.nil_append, List.cons_append] at h
      injection h with hb _
      rw [← hb] at h2
      exact absurd (List.mem_cons_self c t) h2
  | cons a t ih =>
    intro l2 r1 r2 h1 h2 h
    cases l2 with
    | nil =>
      simp only [List.nil_append, List.cons_append] at h
      injection h with hb _
      rw [hb] at h1
      exact absurd (List.mem_cons_self c t) h1
    | cons b t2 =>
      simp only [List.cons_append, List.cons.injEq] at h
      obtain ⟨rfl, h⟩ := h
      have hr := ih (fun hm => h1 (List.mem_cons_of_mem a hm))
        (fun hm => h2 (List.mem_cons_of_mem a hm)) h
      exact ⟨by rw [hr.1], hr.2⟩

theorem key_split {ns1 ns2 name1 name2 : String}
    (h1 : ('/') ∉ ns1.data) (h2 : ('/') ∉ ns2.data)
    (h : ns1 ++ "/" ++ name1 = ns2 ++ "/" ++ name2) : ns1 = ns2 ∧ name1 = name2 := by
  have hd := congrArg String.data h
  rw [String.data_append, String.data_append, String.data_append, String.data_append] at hd
  have hd2 : ns1.data ++ '/' :: name1.data = ns2.data ++ '/' :: name2.data := by
    simpa [List.append_assoc] using hd
  have hsp := append_sep_inj h1 h2 hd2
  exact ⟨String.ext hsp.1, String.ext hsp.2⟩

theorem repr_data_inj {n1 n2 : Nat} (h : (Nat.repr n1).data = (Nat.repr n2).data) : n1 = n2 := by
  rw [repr_data_eq_bigEndian, repr_data_eq_bigEndian] at h
  rw [← readNat_bigEndian n1, ← readNat_bigEndian n2, h]

theorem digits_suffix_inj {n1 n2 : Nat} {s1 s2 : List Char}
    (hs1 : s1 = [] ∨ ∃ t, s1 = '-' :: t) (hs2 : s2 = [] ∨ ∃ t, s2 = '-' :: t)
    (h : (Nat.repr n1).data ++ s1 = (Nat.repr n2).data ++ s2) : n1 = n2 ∧ s1 = s2 := by
  rcases hs1 with rfl | ⟨t1, rfl⟩
  · rcases hs2 with rfl | ⟨t2, rfl⟩
    · rw [List.append_nil, List.append_nil] at h
      exact ⟨repr_data_inj h, rfl⟩
    · exfalso
      rw [List.append_nil] at h
      have hmem : ('-') ∈ (Nat.repr n1).data := by
        rw [h]
        exact List.mem_append_right _ (List.mem_cons_self _ _)
      exact repr_not_mem_dash n1 hmem
  · rcases hs2 with rfl | ⟨t2, rfl⟩
    · exfalso
      rw [List.append_nil] at h
      have hmem : ('-') ∈ (Nat.repr n2).data := by
        rw [← h]
        exact List.mem_append_right _ (List.mem_cons_self _ _)
      exact repr_not_mem_dash n2 hmem
    · have hsp := append_sep_inj (repr_not_mem_dash n1) (repr_not_mem_dash n2) h
      exact ⟨repr_data_inj hsp.1, by rw [hsp.2]⟩

theorem proto_port_suffix_inj {pr1 pr2 : List Char} {n1 n2 : Nat} {s1 s2 : List Char}
    (hpr1 : pr1 = "tcp".data ∨ pr1 = "udp".data ∨ pr1 = "sctp".data)
    (hpr2 : pr2 = "tcp".data ∨ pr2 = "udp".data ∨ pr2 = "sctp".data)
    (hs1 : s1 = [] ∨ ∃ t, s1 = '-' :: t) (hs2 : s2 = [] ∨ ∃ t, s2 = '-' :: t)
    (h : pr1 ++ '-' :: ((Nat.repr n1).data ++ s1) = pr2 ++ '-' :: ((Nat.repr n2).data ++ s2)) :
    pr1 = pr2 ∧ n1 = n2 ∧ s1 = s2 := by
  have hnd1 : ('-') ∉ pr1 := by rcases hpr1 with rfl | rfl | rfl <;> decide
  have hnd2 : ('-') ∉ pr2 := by rcases hpr2 with rfl | rfl | rfl <;> decide
  have hsp := append_sep_inj hnd1 hnd2 h
  have hds := digits_suffix_inj hs1 hs2 hsp.2
  exact ⟨hsp.1, hds⟩

theorem lower_proto_data {p : String}
    (h : p = "TCP" ∨ p = "UDP" ∨ p = "SCTP") :
    (strToLower p).data = "tcp".data ∨ (strToLower p).data = "udp".data ∨
      (strToLower p).data = "sctp".data := by
  rcases h with rfl | rfl | rfl
  · exact Or.inl (by decide)
  · exact Or.inr (Or.inl (by decide))
  · exact Or.inr (Or.inr (by decide))

theorem proto_of_lower_eq {p1 p2 : String}
    (h1 : p1 = "TCP" ∨ p1 = "UDP" ∨ p1 = "SCTP")
    (h2 : p2 = "TCP" ∨ p2 = "UDP" ∨ p2 = "SCTP")
    (h : (strToLower p1).data = (strToLower p2).data) : p1 = p2 := by
  rcases h1 with rfl | rfl | rfl <;> rcases h2 with rfl | rfl | rfl <;>
    first | rfl | (exfalso; revert h; decide)

theorem ingress_name_data (svcName : String) (p : String) (m : Nat) (sfx : String) :
    (("ingress-to-" ++ policyIDFor svcName { protocol := p, port := .int (m : Int) }) ++
        sfx).data =
      "ingress-to-".data ++ (svcName.data ++ ('-' :: ((strToLower p).data ++
        ('-' :: ((Nat.repr m).data ++ sfx.data))))) := by
  unfold policyIDFor
  show ((("ingress-to-" ++ (((svcName ++ "-") ++ strToLower p) ++ "-" ++ Nat.repr m)) ++
    sfx)).data = _
  simp [String.data_append, List.append_assoc]

theorem sfx_shape (svcNs ns : String) :
    (if (svcNs != ns) = true then "-from-" ++ ns else "").data = [] ∨
      ∃ t, (if (svcNs != ns) = true then "-from-" ++ ns else "").data = '-' :: t := by
  by_cases hb : (svcNs != ns) = true
  · rw [if_pos hb]
    refine Or.inr ⟨"from-".data ++ ns.data, ?_⟩
    rw [String.data_append]
    rfl
  · rw [if_neg hb]
    exact Or.inl rfl

theorem sfx_inj {svcNs ns1 ns2 : String}
    (h : (if (svcNs != ns1) = true then "-from-" ++ ns1 else "").data =
         (if (svcNs != ns2) = true then "-from-" ++ ns2 else "").data) : ns1 = ns2 := by
  by_cases hb1 : (svcNs != ns1) = true
  · by_cases hb2 : (svcNs != ns2) = true
    · rw [if_pos hb1, if_pos hb2, String.data_append, String.data_append] at h
      exact String.ext (List.append_cancel_left h)
    · rw [if_pos hb1, if_neg hb2, String.data_append] at h
      exfalso
      have hc : ("-from-" : String).data = '-' :: "from-".data := rfl
      rw [hc] at h
      cases h
  · by_cases hb2 : (svcNs != ns2) = true
    · rw [if_neg hb1, if_pos hb2, String.data_append] at h
      exfalso
      have hc : ("-from-" : String).data = '-' :: "from-".data := rfl
      rw [hc] at h
      cases h
    · have e1 : svcNs = ns1 := by
        simpa using hb1
      have e2 : svcNs = ns2 := by
        simpa using hb2
      rw [← e1, ← e2]

theorem ingress_key_inj {service : Service} {p1 p2 : String} {m1 m2 : Nat} {ns1 ns2 : String}
    (hns : ('/') ∉ service.nspace.data)
    (hpr1 : p1 = "TCP" ∨ p1 = "UDP" ∨ p1 = "SCTP")
    (hpr2 : p2 = "TCP" ∨ p2 = "UDP" ∨ p2 = "SCTP")
    (h : derivedPolicyKey service ⟨.ingress, ⟨p1, .int (m1 : Int)⟩, ns1⟩ =
         derivedPolicyKey service ⟨.ingress, ⟨p2, .int (m2 : Int)⟩, ns2⟩) :
    p1 = p2 ∧ m1 = m2 ∧ ns1 = ns2 := by
  have hk : service.nspace ++ "/" ++
      (("ingress-to-" ++ policyIDFor service.name { protocol := p1, port := .int (m1 : Int) }) ++
        (if (service.nspace != ns1) = true then "-from-" ++ ns1 else "")) =
    service.nspace ++ "/" ++
      (("ingress-to-" ++ policyIDFor service.name { protocol := p2, port := .int (m2 : Int) }) ++
        (if (service.nspace != ns2) = true then "-from-" ++ ns2 else "")) := h
  have hsplit := key_split hns hns hk
  have hd := congrArg String.data hsplit.2
  rw [ingress_name_data, ingress_name_data] at hd
  have h2 := List.append_cancel_left hd
  have h3 := List.append_cancel_left h2
  injection h3 with _ h4
  have hmain := proto_port_suffix_inj (lower_proto_data hpr1) (lower_proto_data hpr2)
    (sfx_shape service.nspace ns1) (sfx_shape service.nspace ns2) h4
  exact ⟨proto_of_lower_eq hpr1 hpr2 hmain.1, hmain.2.1, sfx_inj hmain.2.2⟩

theorem egress_name_data_same (svcName : String) (p : String) (m : Nat) :
    (("egress-to-" ++ policyIDFor svcName { protocol := p, port := .int (m : Int) })).data =
      "egress-to-".data ++ (svcName.data ++ ('-' :: ((strToLower p).data ++
        ('-' :: ((Nat.repr m).data ++ []))))) := by
  unfold policyIDFor
  show (("egress-to-" ++ (((svcName ++ "-") ++ strToLower p) ++ "-" ++ Nat.repr m))).data = _
  simp [String.data_append, List.append_assoc]

theorem egress_name_data_cross (svcNs svcName : String) (p : String) (m : Nat) :
    ((("egress-to-" ++ svcNs) ++ "-" ++
        policyIDFor svcName { protocol := p, port := .int (m : Int) })).data =
      "egress-to-".data ++ (svcNs.data ++ ('-' :: (svcName.data ++ ('-' ::
        ((strToLower p).data ++ ('-' :: ((Nat.repr m).data ++ []))))))) := by
  unfold policyIDFor
  show ((("egress-to-" ++ svcNs) ++ "-" ++
    (((svcName ++ "-") ++ strToLower p) ++ "-" ++ Nat.repr m))).data = _
  simp [String.data_append, List.append_assoc]

theorem egress_key_inj {service : Service} {p1 p2 : String} {m1 m2 : Nat} {ns1 ns2 : String}
    (hn1 : ('/') ∉ ns1.data) (hn2 : ('/') ∉ ns2.data)
    (hpr1 : p1 = "TCP" ∨ p1 = "UDP" ∨ p1 = "SCTP")
    (hpr2 : p2 = "TCP" ∨ p2 = "UDP" ∨ p2 = "SCTP")
    (h : derivedPolicyKey service ⟨.egress, ⟨p1, .int (m1 : Int)⟩, ns1⟩ =
         derivedPolicyKey service ⟨.egress, ⟨p2, .int (m2 : Int)⟩, ns2⟩) :
    p1 = p2 ∧ m1 = m2 ∧ ns1 = ns2 := by
  have hk : ns1 ++ "/" ++
      (if (service.nspace != ns1) = true then
        "egress-to-" ++ service.nspace ++ "-" ++
          policyIDFor service.name { protocol := p1, port := .int (m1 : Int) }
      else "egress-to-" ++ policyIDFor service.name { protocol := p1, port := .int (m1 : Int) }) =
    ns2 ++ "/" ++
      (if (service.nspace != ns2) = true then
        "egress-to-" ++ service.nspace ++ "-" ++
          policyIDFor service.name { protocol := p2, port := .int (m2 : Int) }
      else "egress-to-" ++ policyIDFor service.name { protocol := p2, port := .int (m2 : Int) }) := h
  have hsplit := key_split hn1 hn2 hk
  obtain ⟨hnseq, hnames⟩ := hsplit
  subst hnseq
  have hd := congrArg String.data hnames
  by_cases hb : (service.nspace != ns1) = true
  · rw [if_pos hb, if_pos hb] at hd
    rw [egress_name_data_cross, egress_name_data_cross] at hd
    have h2 := List.append_cancel_left hd
    have h3 := List.append_cancel_left h2
    injection h3 with _ h4
    have h5 := List.append_cancel_left h4
    injection h5 with _ h6
    have hmain := proto_port_suffix_inj (lower_proto_data hpr1) (lower_proto_data hpr2)
      (Or.inl rfl) (Or.inl rfl) h6
    exact ⟨proto_of_lower_eq hpr1 hpr2 hmain.1, hmain.2.1, rfl⟩
  · rw [if_neg hb, if_neg hb] at hd
    rw [egress_name_data_same, egress_name_data_same] at hd
    have h2 := List.append_cancel_left hd
    have h3 := List.append_cancel_left h2
    injection h3 with _ h4
    have hmain := proto_port_suffix_inj (lower_proto_data hpr1) (lower_proto_data hpr2)
      (Or.inl rfl) (Or.inl rfl) h4
    exact ⟨proto_of_lower_eq hpr1 hpr2 hmain.1, hmain.2.1, rfl⟩

theorem ingress_prefix_ne_egress_prefix {A B : List Char}
    (h : "ingress-to-".data ++ A = "egress-to-".data ++ B) : False := by
  have h1 : ("ingress-to-" : String).data = 'i' :: "ngress-to-".data := rfl
  have h2 : ("egress-to-" : String).data = 'e' :: "gress-to-".data := rfl
  rw [h1, h2, List.cons_append, List.cons_append] at h
  injection h with hc _
  cases hc

theorem ingress_key_ne_egress_key {service : Service} {p1 p2 : String} {m1 m2 : Nat}
    {ns1 ns2 : String}
    (hns : ('/') ∉ service.nspace.data) (hn2 : ('/') ∉ ns2.data)
    (h : derivedPolicyKey service ⟨.ingress, ⟨p1, .int (m1 : Int)⟩, ns1⟩ =
         derivedPolicyKey service ⟨.egress, ⟨p2, .int (m2 : Int)⟩, ns2⟩) : False := by
  have hk : service.nspace ++ "/" ++
      (("ingress-to-" ++ policyIDFor service.name { protocol := p1, port := .int (m1 : Int) }) ++
        (if (service.nspace != ns1) = true then "-from-" ++ ns1 else "")) =
    ns2 ++ "/" ++
      (if (service.nspace != ns2) = true then
        "egress-to-" ++ service.nspace ++ "-" ++
          policyIDFor service.name { protocol := p2, port := .int (m2 : Int) }
      else "egress-to-" ++ policyIDFor service.name { protocol := p2, port := .int (m2 : Int) }) := h
  have hsplit := key_split hns hn2 hk
  have hd := congrArg String.data hsplit.2
  rw [ingress_name_data] at hd
  by_cases hb : (service.nspace != ns2) = true
  · rw [if_pos hb, egress_name_data_cross] at hd
    exact ingress_prefix_ne_egress_prefix hd
  · rw [if_neg hb, egress_name_data_same] at hd
    exact ingress_prefix_ne_egress_prefix hd

/-- Claim C5 (amended): for every single service the identity-key derivation
is deterministic — the key is a pure function of the derivation tuple — and
injective on tuples whose target port is numeric, whose protocol is one of
TCP/UDP/SCTP, and whose namespace names contain no slash (all valid
Kubernetes inputs); the counterexample shows that injectivity does not
extend to named string target ports. -/
theorem c5_amended_key_deterministic_and_injective_for_numeric_ports (service : Service) :
    (∀ t : DerivationTuple, derivedPolicyKey service t = derivedPolicyKey service t) ∧
    ∀ t1 t2 : DerivationTuple,
      ('/') ∉ service.nspace.data →
      ('/') ∉ t1.namespaceName.data → ('/') ∉ t2.namespaceName.data →
      (∃ n : Nat, t1.port.port = .int (n : Int)) →
      (∃ n : Nat, t2.port.port = .int (n : Int)) →
      (t1.port.protocol = "TCP" ∨ t1.port.protocol = "UDP" ∨ t1.port.protocol = "SCTP") →
      (t2.port.protocol = "TCP" ∨ t2.port.protocol = "UDP" ∨ t2.port.protocol = "SCTP") →
      derivedPolicyKey service t1 = derivedPolicyKey service t2 → t1 = t2 := by
  refine ⟨fun _ => rfl, ?_⟩
  rintro ⟨d1, ⟨p1, pp1⟩, ns1⟩ ⟨d2, ⟨p2, pp2⟩, ns2⟩ hns hn1 hn2 ⟨m1, hm1⟩ ⟨m2, hm2⟩ hpr1 hpr2 h
  simp only at hm1 hm2 hpr1 hpr2 hn1 hn2
  subst hm1
  subst hm2
  cases d1 <;> cases d2
  · obtain ⟨he1, he2, he3⟩ := ingress_key_inj hns hpr1 hpr2 h
    rw [he1, he2, he3]
  · exact absurd h (fun hh => ingress_key_ne_egress_key hns hn2 hh)
  · exact absurd h.symm (fun hh => ingress_key_ne_egress_key hns hn1 hh)
  · obtain ⟨he1, he2, he3⟩ := egress_key_inj hn1 hn2 hpr1 hpr2 h
    rw [he1, he2, he3]

/-- Witness for the amended C5 at a concrete input: the Scenario A service
and the TCP/80 ingress tuple in its own namespace. -/
theorem c5_amended_key_deterministic_and_injective_for_numeric_ports_witness :
    (⟨.ingress, ⟨"TCP", .int 80⟩, "ns1"⟩ : DerivationTuple) =
      ⟨.ingress, ⟨"TCP", .int 80⟩, "ns1"⟩ := by
  exact (c5_amended_key_deterministic_and_injective_for_numeric_ports svcScenarioA).2
    ⟨.ingress, ⟨"TCP", .int 80⟩, "ns1"⟩ ⟨.ingress, ⟨"TCP", .int 80⟩, "ns1"⟩
    (by decide) (by decide) (by decide) ⟨80, rfl⟩ ⟨80, rfl⟩
    (Or.inl rfl) (Or.inl rfl) rfl

/-- Claim C5 counterexample: with a named string target port the key
derivation collides.  For `svc1` in `ns1`, the ingress tuple with the port
named `80-from-ns2` (a syntactically valid Kubernetes port name) in the
service's own namespace and the ingress tuple with numeric port 80 in
namespace `ns2` are different derivation tuples, yet both produce the key
`ns1/ingress-to-svc1-tcp-80-from-ns2` — refuting the claimed injectivity for
named string ports. -/
theorem c5_counterexample_named_port_key_collision :
    derivedPolicyKey svcScenarioA ⟨.ingress, ⟨"TCP", .str "80-from-ns2"⟩, "ns1"⟩ =
        derivedPolicyKey svcScenarioA ⟨.ingress, ⟨"TCP", .int 80⟩, "ns2"⟩ ∧
      derivedPolicyKey svcScenarioA ⟨.ingress, ⟨"TCP", .str "80-from-ns2"⟩, "ns1"⟩ =
        "ns1/ingress-to-svc1-tcp-80-from-ns2" ∧
      (⟨.ingress, ⟨"TCP", .str "80-from-ns2"⟩, "ns1"⟩ : DerivationTuple) ≠
        ⟨.ingress, ⟨"TCP", .int 80⟩, "ns2"⟩ := by
  exact ⟨by decide, by decide, by decide⟩

end NPol
